import Mathlib

/-!
Verification of the orchestration core and GitHub sync engine of the
`exp-agent-management` repository, against its natural-language specification.

The Rust source is shallowly embedded:
* UUIDs are modelled as `Nat` (they are only generated fresh and compared);
* `DateTime<Utc>` timestamps are modelled as `Nat`;
* `HashMap` lookup tables are modelled by their lookup functions: a map built
  by `collect` (later duplicate keys overwrite earlier ones) is looked up by
  `List.find?` on the reversed entry list, and a map of `Vec`s built by
  `entry(..).or_default().push(..)` is looked up by filtering the original
  row list in order, which yields exactly the pushed vector;
* `HashMap` iteration order is unspecified in Rust; the embedding fixes it to
  first-insertion order (the task-list order), a concrete instantiation of
  the unspecified behaviour;
* the database-backed stores used by the GitHub sync service are modelled as
  explicit state (lists of rows) threaded through the functions, and
  `Result` becomes `Except`.
-/

namespace AgentMgmt

/-! ## Data model (src/crates/db/src/models) -/

/-- Task status, `db::models::task::TaskStatus`. -/
inductive TaskStatus
  | Todo
  | InProgress
  | InReview
  | Done
  | Cancelled
deriving DecidableEq, Repr

/-- `db::models::task::Task`. The two `f64` DAG-layout coordinates are
omitted: no claim mentions them and floating point is outside the embedding.
`parent_workspace_id` and `shared_task_id` are carried as opaque options. -/
structure Task where
  id : Nat
  project_id : Nat
  title : String
  description : Option String
  status : TaskStatus
  parent_workspace_id : Option Nat
  shared_task_id : Option Nat
  position : Option Int
  created_at : Nat
  updated_at : Nat
deriving DecidableEq, Repr

/-- `db::models::task_dependency::DependencyCreator`. -/
inductive DependencyCreator
  | User
  | Ai
deriving DecidableEq, Repr

/-- `db::models::task_dependency::TaskDependency`: the row states that
`task_id` depends on `depends_on_task_id`. -/
structure TaskDependency where
  id : Nat
  task_id : Nat
  depends_on_task_id : Nat
  genre_id : Option Nat
  created_at : Nat
  created_by : DependencyCreator
deriving DecidableEq, Repr

/-! ## Scheduler model types (src/crates/orchestrator/src/models.rs) -/

/-- `TaskReadiness` of the orchestrator models. -/
inductive TaskReadiness
  | Ready
  | Blocked (blocking_task_ids : List Nat)
  | InProgress
  | Completed
  | Cancelled
deriving DecidableEq, Repr

/-- `ExecutableTask`. -/
structure ExecutableTask where
  task_id : Nat
  status : TaskStatus
  readiness : TaskReadiness
  dependencies : List Nat
  dependents : List Nat
deriving DecidableEq, Repr

/-- `ExecutionLevel`. -/
structure ExecutionLevel where
  level : Nat
  tasks : List ExecutableTask
deriving DecidableEq, Repr

/-- `ExecutionPlan`. -/
structure ExecutionPlan where
  levels : List ExecutionLevel
  total_tasks : Nat
  completed_tasks : Nat
  in_progress_tasks : Nat
  in_review_tasks : Nat
  ready_tasks : Nat
  blocked_tasks : Nat
deriving DecidableEq, Repr

/-! ## Scheduler (src/crates/orchestrator/src/scheduler.rs) -/

/-- Lookup in the `HashMap<Uuid, &Task>` built by
`tasks.iter().map(|t| (t.id, t)).collect()`: later duplicate ids overwrite
earlier ones, so lookup returns the last matching row. -/
def task_map_get (tasks : List Task) (id : Nat) : Option Task :=
  tasks.reverse.find? (fun t => t.id == id)

/-- The vector `deps_for_task.get(&t).cloned().unwrap_or_default()`:
dependency targets of `t`, pushed in row order. -/
def deps_for_task (dependencies : List TaskDependency) (t : Nat) : List Nat :=
  (dependencies.filter (fun d => d.task_id == t)).map (fun d => d.depends_on_task_id)

/-- The vector `dependents_of_task.get(&t).cloned().unwrap_or_default()`:
tasks directly depending on `t`, pushed in row order. -/
def dependents_of_task (dependencies : List TaskDependency) (t : Nat) : List Nat :=
  (dependencies.filter (fun d => d.depends_on_task_id == t)).map (fun d => d.task_id)

/-- Pointwise update of a degree table (`in_degree` entry write). -/
def updFn (f : Nat → Nat) (k v : Nat) : Nat → Nat :=
  fun x => if x == k then v else f x

/-- One dependent visit inside Kahn's algorithm: mirror of
`if let Some(deg) = in_degree.get_mut(&dependent_id) { *deg = deg.saturating_sub(1);
if *deg == 0 { next_level.push_back(dependent_id); } }`.
`Nat` subtraction is saturating exactly like `usize::saturating_sub`. -/
def procStep (taskIds : List Nat) (st : (Nat → Nat) × List Nat) (v : Nat) :
    (Nat → Nat) × List Nat :=
  if taskIds.contains v then
    let d := st.1 v - 1
    (updFn st.1 v d, if d == 0 then st.2 ++ [v] else st.2)
  else st

/-- Processing of one drained level: every drained task visits each of its
dependents in order. -/
def processLevel (taskIds : List Nat) (dependents : Nat → List Nat)
    (deg : Nat → Nat) (cur : List Nat) : (Nat → Nat) × List Nat :=
  cur.foldl (fun st u => (dependents u).foldl (procStep taskIds) st) (deg, [])

/-- The `while !current_level.is_empty()` loop of `topological_sort_levels`.
The Rust loop terminates because every iteration drains a nonempty frontier
and (as proved below) a task enters a frontier at most once; the recursion is
given explicit fuel strictly larger than any possible number of iterations. -/
def kahnLoop (taskIds : List Nat) (dependents : Nat → List Nat) :
    Nat → (Nat → Nat) → List Nat → List (List Nat)
  | 0, _, _ => []
  | fuel + 1, deg, cur =>
    if cur.isEmpty then []
    else
      let st := processLevel taskIds dependents deg cur
      cur :: kahnLoop taskIds dependents fuel st.1 st.2

/-- `topological_sort_levels`: Kahn's algorithm with level tracking.
The key set of `in_degree` (one key per distinct task id, in first-insertion
order) is `(tasks.map id).eraseDups`; the initial degree of a task is the
length of its dependency vector; the seed frontier is the zero-degree keys. -/
def topological_sort_levels (tasks : List Task) (dependencies : List TaskDependency) :
    List (List Nat) :=
  let taskIds := (tasks.map (fun t => t.id)).eraseDups
  let deg0 : Nat → Nat := fun t => (deps_for_task dependencies t).length
  let seed := taskIds.filter (fun t => deg0 t == 0)
  kahnLoop taskIds (fun t => dependents_of_task dependencies t)
    (taskIds.length + dependencies.length + 1) deg0 seed

/-- `calculate_readiness`. -/
def calculate_readiness (task : Task) (dependencies : List Nat)
    (tasks : List Task) : TaskReadiness :=
  match task.status with
  | TaskStatus.Done => TaskReadiness.Completed
  | TaskStatus.Cancelled => TaskReadiness.Cancelled
  | TaskStatus.InProgress => TaskReadiness.InProgress
  | TaskStatus.InReview => TaskReadiness.InProgress
  | TaskStatus.Todo =>
    let blocking_tasks := dependencies.filter (fun dep_id =>
      match task_map_get tasks dep_id with
      | some dep_task => dep_task.status != TaskStatus.Done
      | none => false)
    if blocking_tasks.isEmpty then TaskReadiness.Ready
    else TaskReadiness.Blocked blocking_tasks

/-- The `ExecutableTask` built for one input task in `build_execution_plan`. -/
def mkExecutableTask (tasks : List Task) (dependencies : List TaskDependency)
    (task : Task) : ExecutableTask :=
  let task_deps := deps_for_task dependencies task.id
  let task_dependents := dependents_of_task dependencies task.id
  { task_id := task.id
    status := task.status
    readiness := calculate_readiness task task_deps tasks
    dependencies := task_deps
    dependents := task_dependents }

/-- Lookup in the `executable_map` (collect by `task_id`, later wins). -/
def executable_map_get (ets : List ExecutableTask) (id : Nat) : Option ExecutableTask :=
  ets.reverse.find? (fun t => t.task_id == id)

/-- Statistics pass of `build_execution_plan`: readiness counters plus the
status-based `in_review` counter. -/
def planStats (levels : List ExecutionLevel) : Nat × Nat × Nat × Nat × Nat :=
  levels.foldl (fun acc lv =>
    lv.tasks.foldl (fun acc task =>
      let (completed, in_progress, in_review, ready, blocked) := acc
      let (completed, in_progress, ready, blocked) :=
        match task.readiness with
        | TaskReadiness.Completed => (completed + 1, in_progress, ready, blocked)
        | TaskReadiness.InProgress => (completed, in_progress + 1, ready, blocked)
        | TaskReadiness.Ready => (completed, in_progress, ready + 1, blocked)
        | TaskReadiness.Blocked _ => (completed, in_progress, ready, blocked + 1)
        | TaskReadiness.Cancelled => (completed, in_progress, ready, blocked)
      let in_review := if task.status == TaskStatus.InReview then in_review + 1 else in_review
      (completed, in_progress, in_review, ready, blocked)) acc)
    (0, 0, 0, 0, 0)

/-- `build_execution_plan`. -/
def build_execution_plan (tasks : List Task) (dependencies : List TaskDependency) :
    ExecutionPlan :=
  let levels := topological_sort_levels tasks dependencies
  let all_executable_tasks := tasks.map (mkExecutableTask tasks dependencies)
  let execution_levels :=
    ((levels.enum.map (fun p =>
        { level := p.1
          tasks := p.2.filterMap (executable_map_get all_executable_tasks)
          : ExecutionLevel })).filter
      (fun l => !l.tasks.isEmpty))
  let (completed, in_progress, in_review, ready, blocked) := planStats execution_levels
  { levels := execution_levels
    total_tasks := tasks.length
    completed_tasks := completed
    in_progress_tasks := in_progress
    in_review_tasks := in_review
    ready_tasks := ready
    blocked_tasks := blocked }

/-- `get_ready_tasks`. -/
def get_ready_tasks (plan : ExecutionPlan) : List ExecutableTask :=
  (plan.levels.flatMap (fun level => level.tasks)).filter
    (fun task => task.readiness == TaskReadiness.Ready)

/-- `get_tasks_unblocked_by_completion`: tasks whose readiness is `Blocked`
with a singleton blocking list equal to the completing task. -/
def get_tasks_unblocked_by_completion (plan : ExecutionPlan)
    (completed_task_id : Nat) : List Nat :=
  (plan.levels.flatMap (fun level => level.tasks)).filterMap (fun task =>
    match task.readiness with
    | TaskReadiness.Blocked blocking_task_ids =>
      if blocking_task_ids.length == 1 &&
          blocking_task_ids.getD 0 0 == completed_task_id then
        some task.task_id
      else none
    | _ => none)

/-! ## State machine (src/crates/orchestrator/src/state_machine.rs) -/

/-- `TransitionValidation` of the orchestrator models. -/
inductive TransitionValidation
  | Valid
  | Invalid (reason : String)
  | RequiresConfirmation (reason : String) (blocking_tasks : List Nat)
deriving DecidableEq, Repr

/-- `is_valid_transition`: the transition table of the state machine. -/
def is_valid_transition (from_status to_status : TaskStatus) : Bool :=
  match from_status, to_status with
  | TaskStatus.Todo, TaskStatus.InProgress => true
  | TaskStatus.Todo, TaskStatus.Cancelled => true
  | TaskStatus.InProgress, TaskStatus.Todo => true
  | TaskStatus.InProgress, TaskStatus.InReview => true
  | TaskStatus.InProgress, TaskStatus.Done => true
  | TaskStatus.InProgress, TaskStatus.Cancelled => true
  | TaskStatus.InReview, TaskStatus.InProgress => true
  | TaskStatus.InReview, TaskStatus.Done => true
  | TaskStatus.InReview, TaskStatus.Cancelled => true
  | TaskStatus.Done, TaskStatus.Todo => true
  | TaskStatus.Done, TaskStatus.InProgress => true
  | TaskStatus.Cancelled, TaskStatus.Todo => true
  | _, _ => false

/-- `status_to_string`. -/
def status_to_string (status : TaskStatus) : String :=
  match status with
  | TaskStatus.Todo => "todo"
  | TaskStatus.InProgress => "in_progress"
  | TaskStatus.InReview => "in_review"
  | TaskStatus.Done => "done"
  | TaskStatus.Cancelled => "cancelled"

/-- `get_blocking_tasks`: dependency targets of the task that are present in
the task map and not `Done`. -/
def get_blocking_tasks (task_id : Nat) (all_tasks : List Task)
    (dependencies : List TaskDependency) : List Nat :=
  (dependencies.filter (fun dep => dep.task_id == task_id)).filterMap (fun dep =>
    (task_map_get all_tasks dep.depends_on_task_id).bind (fun t =>
      if t.status != TaskStatus.Done then some t.id else none))

/-- `validate_transition`. -/
def validate_transition (task : Task) (new_status : TaskStatus)
    (all_tasks : List Task) (dependencies : List TaskDependency) :
    TransitionValidation :=
  let current := task.status
  if current == new_status then TransitionValidation.Valid
  else if !is_valid_transition current new_status then
    TransitionValidation.Invalid
      ("Cannot transition from " ++ status_to_string current ++ " to " ++
        status_to_string new_status)
  else
    match new_status with
    | TaskStatus.InProgress =>
      let blocking := get_blocking_tasks task.id all_tasks dependencies
      if !blocking.isEmpty then
        TransitionValidation.RequiresConfirmation
          ("Task has " ++ toString blocking.length ++
            " incomplete dependencies. Starting this task may cause issues.")
          blocking
      else TransitionValidation.Valid
    | _ => TransitionValidation.Valid

/-- `can_start_task`. -/
def can_start_task (task : Task) (all_tasks : List Task)
    (dependencies : List TaskDependency) : Bool :=
  if task.status != TaskStatus.Todo then false
  else (get_blocking_tasks task.id all_tasks dependencies).isEmpty

/-! ## Orchestrator lifecycle (src/crates/orchestrator/src/engine.rs) -/

/-- `OrchestratorState`. -/
inductive OrchestratorState
  | Idle
  | Running
  | Paused
  | Stopping
deriving DecidableEq, Repr

/-- `OrchestratorEvent`. -/
inductive OrchestratorEvent
  | TaskStarted (task_id : Nat)
  | TaskCompleted (task_id : Nat)
  | TaskFailed (task_id : Nat) (error : String)
  | TaskAwaitingReview (task_id : Nat)
  | StateChanged (state : OrchestratorState)
  | PlanUpdated (plan : ExecutionPlan)
deriving DecidableEq, Repr

/-- `ProjectOrchestrator::stop`, as a function from the current state to the
final state together with the list of events emitted, in emission order.
The Rust method always returns `Ok(())`: if the state is already `Idle` it
returns immediately with no event; otherwise it writes `Stopping`, emits,
then immediately writes `Idle` and emits again, all under the state lock. -/
def orchestrator_stop (state : OrchestratorState) :
    OrchestratorState × List OrchestratorEvent :=
  if state == OrchestratorState.Idle then (state, [])
  else
    (OrchestratorState.Idle,
      [OrchestratorEvent.StateChanged OrchestratorState.Stopping,
        OrchestratorEvent.StateChanged OrchestratorState.Idle])

/-! ## GitHub sync engine (src/crates/services/src/services/github/sync.rs)

The sync service reads and writes database rows through the repository
models.  The stores it touches are modelled as an explicit `SyncState`
record threaded through the functions; `Uuid::new_v4()` is modelled by a
supply of fresh ids carried in the state. -/

/-- `db::models::github_issue_mapping::SyncDirection`. -/
inductive SyncDirection
  | Bidirectional
  | GithubToVibe
  | VibeToGithub
deriving DecidableEq, Repr

/-- `db::models::github_issue_mapping::GitHubIssueMapping`. -/
structure GitHubIssueMapping where
  id : Nat
  task_id : Nat
  github_project_link_id : Nat
  github_issue_number : Nat
  github_issue_id : String
  github_issue_url : String
  sync_direction : SyncDirection
  last_synced_at : Option Nat
  github_updated_at : Option Nat
  vibe_updated_at : Option Nat
  created_at : Nat
  updated_at : Nat
deriving DecidableEq, Repr

/-- `db::models::github_project_link::GitHubProjectLink` (the fields the sync
engine reads). -/
structure GitHubProjectLink where
  id : Nat
  project_id : Nat
  github_project_id : String
  sync_enabled : Bool
  last_sync_at : Option Nat
deriving DecidableEq, Repr

/-- `db::models::task_property::PropertySource`. -/
inductive PropertySource
  | Vibe
  | Github
deriving DecidableEq, Repr

/-- `db::models::task_property::TaskProperty`. -/
structure TaskProperty where
  id : Nat
  task_id : Nat
  property_name : String
  property_value : String
  source : PropertySource
  created_at : Nat
  updated_at : Nat
deriving DecidableEq, Repr

/-- `services::github::projects::GitHubLabel`. -/
structure GitHubLabel where
  name : String
  color : String
deriving DecidableEq, Repr

/-- `services::github::projects::GitHubMilestone`. -/
structure GitHubMilestone where
  id : String
  title : String
  number : Nat
deriving DecidableEq, Repr

/-- `services::github::projects::GitHubIssue`. -/
structure GitHubIssue where
  id : String
  number : Nat
  title : String
  body : Option String
  state : String
  url : String
  created_at : Nat
  updated_at : Nat
  closed_at : Option Nat
  author_login : Option String
  assignees : List String
  labels : List GitHubLabel
  milestone : Option GitHubMilestone
deriving DecidableEq, Repr

/-- `services::github::projects::ProjectFieldValue`. -/
structure ProjectFieldValue where
  field_name : String
  value : String
deriving DecidableEq, Repr

/-- `services::github::projects::GitHubProjectItem`. -/
structure GitHubProjectItem where
  id : String
  issue : Option GitHubIssue
  field_values : List ProjectFieldValue
deriving DecidableEq, Repr

/-- The database rows visible to the sync engine, plus the wall clock
(`CURRENT_TIMESTAMP` / `Utc::now()`) and the supply of values produced by
`Uuid::new_v4()`. -/
structure SyncState where
  tasks : List Task
  mappings : List GitHubIssueMapping
  properties : List TaskProperty
  links : List GitHubProjectLink
  now : Nat
  fresh_ids : List Nat
deriving DecidableEq, Repr

/-- Draw the next `Uuid::new_v4()` value from the supply. -/
def popFresh (st : SyncState) : Nat × SyncState :=
  (st.fresh_ids.headD 0, { st with fresh_ids := st.fresh_ids.tail })

/-- Modelled from the spec: the `Task::find_by_id` repository operation of
§4.7 (the `task.rs` model is not part of the provided sources); returns the
row with the given id. -/
def db_task_find_by_id (st : SyncState) (id : Nat) : Option Task :=
  st.tasks.find? (fun t => t.id == id)

/-- Modelled from the spec: the task update operation of §4.7
(`update_basic`), as invoked by `Task::update(pool, task_id, project_id,
title, description, status, parent_workspace_id)`: rewrites the matching
row's fields and bumps `updated_at`. -/
def db_task_update (st : SyncState) (task_id : Nat) (project_id : Nat)
    (title : String) (description : Option String) (status : TaskStatus)
    (parent_workspace_id : Option Nat) : SyncState :=
  { st with tasks := st.tasks.map (fun t =>
      if t.id == task_id then
        { t with project_id := project_id
                 title := title
                 description := description
                 status := status
                 parent_workspace_id := parent_workspace_id
                 updated_at := st.now }
      else t) }

/-- Modelled from the spec: the task creation operation of §4.7, as invoked
by `Task::create` with a caller-chosen id: inserts a new row. -/
def db_task_create (st : SyncState) (id : Nat) (project_id : Nat)
    (title : String) (description : Option String) (status : TaskStatus)
    (parent_workspace_id : Option Nat) (shared_task_id : Option Nat) :
    SyncState :=
  { st with tasks := st.tasks ++
      [{ id := id
         project_id := project_id
         title := title
         description := description
         status := status
         parent_workspace_id := parent_workspace_id
         shared_task_id := shared_task_id
         position := none
         created_at := st.now
         updated_at := st.now }] }

/-- `GitHubIssueMapping::find_by_github_issue`: row with the given link id
and issue number. -/
def db_mapping_find_by_github_issue (st : SyncState) (link_id : Nat)
    (issue_number : Nat) : Option GitHubIssueMapping :=
  st.mappings.find? (fun m =>
    m.github_project_link_id == link_id && m.github_issue_number == issue_number)

/-- `GitHubIssueMapping::create`: inserts a row with a fresh id; a missing
`sync_direction` defaults to `Bidirectional`. -/
def db_mapping_create (st : SyncState) (task_id link_id issue_number : Nat)
    (issue_id issue_url : String) (sync_direction : Option SyncDirection) :
    SyncState :=
  let (mid, st) := popFresh st
  { st with mappings := st.mappings ++
      [{ id := mid
         task_id := task_id
         github_project_link_id := link_id
         github_issue_number := issue_number
         github_issue_id := issue_id
         github_issue_url := issue_url
         sync_direction := sync_direction.getD SyncDirection.Bidirectional
         last_synced_at := none
         github_updated_at := none
         vibe_updated_at := none
         created_at := st.now
         updated_at := st.now }] }

/-- `GitHubIssueMapping::update_sync_timestamps`: sets `last_synced_at` to
now and overwrites the two sync timestamps. -/
def db_mapping_update_sync_timestamps (st : SyncState) (id : Nat)
    (github_updated_at vibe_updated_at : Option Nat) : SyncState :=
  { st with mappings := st.mappings.map (fun m =>
      if m.id == id then
        { m with last_synced_at := some st.now
                 github_updated_at := github_updated_at
                 vibe_updated_at := vibe_updated_at
                 updated_at := st.now }
      else m) }

/-- `TaskProperty::upsert`: keyed on `(task_id, property_name)`; an existing
row keeps its id and `created_at`, a new row gets a fresh id. -/
def db_task_property_upsert (st : SyncState) (task_id : Nat)
    (property_name property_value : String) (source : Option PropertySource) :
    SyncState :=
  let src := source.getD PropertySource.Vibe
  if st.properties.any (fun p =>
      p.task_id == task_id && p.property_name == property_name) then
    { st with properties := st.properties.map (fun p =>
        if p.task_id == task_id && p.property_name == property_name then
          { p with property_value := property_value
                   source := src
                   updated_at := st.now }
        else p) }
  else
    let (pid, st) := popFresh st
    { st with properties := st.properties ++
        [{ id := pid
           task_id := task_id
           property_name := property_name
           property_value := property_value
           source := src
           created_at := st.now
           updated_at := st.now }] }

/-- `GitHubProjectLink::update_last_sync_at`. -/
def db_link_update_last_sync_at (st : SyncState) (id : Nat) : SyncState :=
  { st with links := st.links.map (fun l =>
      if l.id == id then { l with last_sync_at := some st.now } else l) }

/-- Placeholder for `serde_json::to_string` on a label list: any injective
encoding works for the claims, which never inspect property values. -/
def labelsToJson (labels : List GitHubLabel) : String :=
  "[" ++ String.intercalate "," (labels.map (fun l => l.name)) ++ "]"

/-- Placeholder for `serde_json::to_string` on a milestone. -/
def milestoneToJson (m : GitHubMilestone) : String :=
  m.title

/-- Placeholder for `serde_json::to_string` on an assignee list. -/
def assigneesToJson (assignees : List String) : String :=
  "[" ++ String.intercalate "," assignees ++ "]"

/-- `sync_issue_properties`: the property upserts performed for one issue,
in program order. -/
def sync_issue_properties (st : SyncState) (task_id : Nat)
    (issue : GitHubIssue) (item : GitHubProjectItem) : SyncState :=
  let st := db_task_property_upsert st task_id "github_issue_url" issue.url
    (some PropertySource.Github)
  let st := db_task_property_upsert st task_id "github_issue_number"
    (toString issue.number) (some PropertySource.Github)
  let st := if !issue.labels.isEmpty then
      db_task_property_upsert st task_id "labels" (labelsToJson issue.labels)
        (some PropertySource.Github)
    else st
  let st := match issue.milestone with
    | some milestone =>
      db_task_property_upsert st task_id "milestone" (milestoneToJson milestone)
        (some PropertySource.Github)
    | none => st
  let st := if !issue.assignees.isEmpty then
      db_task_property_upsert st task_id "github_assignees"
        (assigneesToJson issue.assignees) (some PropertySource.Github)
    else st
  item.field_values.foldl (fun st field_value =>
    db_task_property_upsert st task_id
      ("github_" ++ (field_value.field_name.toLower.replace " " "_"))
      field_value.value (some PropertySource.Github)) st

/-- `create_task_from_issue`: all imported tasks start as `Todo`; the GitHub
status is only stored in `task_properties`. -/
def create_task_from_issue (st : SyncState) (project_id : Nat)
    (issue : GitHubIssue) (item : GitHubProjectItem) : SyncState × Nat :=
  let status := TaskStatus.Todo
  let (task_id, st) := popFresh st
  let st := db_task_create st task_id project_id issue.title issue.body
    ((some status).getD TaskStatus.Todo) none none
  let st := sync_issue_properties st task_id issue item
  (st, task_id)

/-- `update_task_from_issue`: loads the existing task, errors when the
mapping is dangling, and otherwise rewrites title and description while
writing back the existing local status unchanged. -/
def update_task_from_issue (st : SyncState) (task_id : Nat)
    (issue : GitHubIssue) (item : GitHubProjectItem) :
    Except String SyncState :=
  match db_task_find_by_id st task_id with
  | none => Except.error ("Task " ++ toString task_id ++ " not found")
  | some existing_task =>
    let st := db_task_update st task_id existing_task.project_id issue.title
      issue.body existing_task.status existing_task.parent_workspace_id
    Except.ok (sync_issue_properties st task_id issue item)

/-- `sync_item_from_github`: returns `true` when a task was created, `false`
when the item was updated or skipped (draft without issue, or an existing
mapping with direction `VibeToGithub`). -/
def sync_item_from_github (st : SyncState) (link : GitHubProjectLink)
    (project_id : Nat) (item : GitHubProjectItem) :
    SyncState × Except String Bool :=
  match item.issue with
  | none => (st, Except.ok false)
  | some issue =>
    match db_mapping_find_by_github_issue st link.id issue.number with
    | some mapping =>
      if mapping.sync_direction == SyncDirection.VibeToGithub then
        (st, Except.ok false)
      else
        match update_task_from_issue st mapping.task_id issue item with
        | Except.error e => (st, Except.error e)
        | Except.ok st =>
          (db_mapping_update_sync_timestamps st mapping.id
            (some issue.updated_at) none, Except.ok false)
    | none =>
      let (st, task_id) := create_task_from_issue st project_id issue item
      (db_mapping_create st task_id link.id issue.number issue.id issue.url
        (some SyncDirection.Bidirectional), Except.ok true)

/-- `SyncResult`. -/
structure SyncResult where
  items_synced : Nat
  items_created : Nat
  items_updated : Nat
  items_skipped : Nat
  errors : List String
deriving DecidableEq, Repr

/-- `SyncResult::default()`. -/
def SyncResult.empty : SyncResult :=
  { items_synced := 0, items_created := 0, items_updated := 0
    items_skipped := 0, errors := [] }

/-- The per-item loop of `sync_from_github`: a per-item error is pushed to
`errors` and the loop continues; a success bumps `items_created` or
`items_updated` and always `items_synced`. -/
def sync_items (st : SyncState) (link : GitHubProjectLink) (project_id : Nat)
    (items : List GitHubProjectItem) (result : SyncResult) :
    SyncState × SyncResult :=
  match items with
  | [] => (st, result)
  | item :: rest =>
    match sync_item_from_github st link project_id item with
    | (st, Except.ok created) =>
      let result :=
        if created then
          { result with items_created := result.items_created + 1
                        items_synced := result.items_synced + 1 }
        else
          { result with items_updated := result.items_updated + 1
                        items_synced := result.items_synced + 1 }
      sync_items st link project_id rest result
    | (st, Except.error e) =>
      sync_items st link project_id rest
        { result with errors :=
            result.errors ++ ["Failed to sync item " ++ item.id ++ ": " ++ e] }

/-- `sync_from_github`: process every project item fetched from the provider
(the `items` argument models the provider response), then stamp the link's
`last_sync_at`. -/
def sync_from_github (st : SyncState) (link : GitHubProjectLink)
    (project_id : Nat) (items : List GitHubProjectItem) :
    SyncState × SyncResult :=
  let (st, result) := sync_items st link project_id items SyncResult.empty
  (db_link_update_last_sync_at st link.id, result)

/-! ## Specification-side predicates and proof infrastructure -/

/-- Acyclicity of a dependency list: some rank function strictly decreases
along every edge.  This is the standard characterization of finite directed
acyclic graphs (a topological numbering exists iff there is no cycle). -/
def AcyclicDeps (dependencies : List TaskDependency) : Prop :=
  ∃ rank : Nat → Nat,
    ∀ d ∈ dependencies, rank d.depends_on_task_id < rank d.task_id

/-- Every dependency edge connects tasks present in the task list. -/
def EdgesWithin (tasks : List Task) (dependencies : List TaskDependency) : Prop :=
  ∀ d ∈ dependencies,
    d.task_id ∈ tasks.map Task.id ∧ d.depends_on_task_id ∈ tasks.map Task.id

/-- The level index the plan assigns to a task id (the `level` field of the
first execution level containing it; `0` when absent). -/
def planLevelOf (plan : ExecutionPlan) (t : Nat) : Nat :=
  ((plan.levels.find? (fun lv => lv.tasks.any (fun et => et.task_id == t))).map
    (fun lv => lv.level)).getD 0

/-- The `(created_at, id)` sort key the specification prescribes for tasks
within a level. -/
def createdIdKey (tasks : List Task) (et : ExecutableTask) : Nat × Nat :=
  match task_map_get tasks et.task_id with
  | some t => (t.created_at, t.id)
  | none => (0, et.task_id)

/-- Lexicographic `(created_at, id)` comparison on sort keys. -/
def lexKeyLe (a b : Nat × Nat) : Bool :=
  Nat.blt a.1 b.1 || (a.1 == b.1 && Nat.ble a.2 b.2)

/-- Whether a key list is sorted by `(created_at asc, id asc)`. -/
def sortedByKey : List (Nat × Nat) → Bool
  | [] => true
  | [_] => true
  | a :: b :: rest => lexKeyLe a b && sortedByKey (b :: rest)

/-- Residual in-degree of `u` once the tasks in `D` have been drained:
the number of dependency rows of `u` whose target is outside `D`. -/
def degSpec (dependencies : List TaskDependency) (D : List Nat) (u : Nat) : Nat :=
  ((deps_for_task dependencies u).filter (fun d => !(D.contains d))).length

/-- `Chainy dependencies taskIds D Ls`: `Ls` is the exact sequence of
frontiers Kahn's algorithm drains after the tasks in `D`.  Each level is the
nonempty, duplicate-free set of undrained tasks all of whose dependencies
are drained; when the sequence ends, no undrained task has all its
dependencies drained. -/
def Chainy (dependencies : List TaskDependency) (taskIds : List Nat) :
    List Nat → List (List Nat) → Prop
  | D, [] => ∀ u ∈ taskIds, (∀ d ∈ deps_for_task dependencies u, d ∈ D) → u ∈ D
  | D, L :: Ls =>
    (∀ u, u ∈ L ↔ u ∈ taskIds ∧ u ∉ D ∧
      ∀ d ∈ deps_for_task dependencies u, d ∈ D) ∧
    L.Nodup ∧ L ≠ [] ∧ Chainy dependencies taskIds (D ++ L) Ls

/-- The two per-item skip rules of `sync_item_from_github`: a draft item
without an issue, or an existing mapping whose direction is
`VibeToGithub`. -/
def skippedByRules (st : SyncState) (link : GitHubProjectLink)
    (item : GitHubProjectItem) : Prop :=
  item.issue = none ∨
  ∃ issue, item.issue = some issue ∧
    ∃ m, db_mapping_find_by_github_issue st link.id issue.number = some m ∧
      m.sync_direction = SyncDirection.VibeToGithub

/-! ## Concrete fixtures used by witnesses and counterexamples -/

/-- A task fixture. -/
def sampleTask (id created_at : Nat) (status : TaskStatus) : Task :=
  { id := id, project_id := 0, title := "task", description := none
    status := status, parent_workspace_id := none, shared_task_id := none
    position := none, created_at := created_at, updated_at := 0 }

/-- A dependency-row fixture: `task_id` depends on `depends_on`. -/
def sampleDep (id task_id depends_on : Nat) : TaskDependency :=
  { id := id, task_id := task_id, depends_on_task_id := depends_on
    genre_id := none, created_at := 0, created_by := DependencyCreator.User }

/-- A three-task chain `2 depends on 1 depends on 0`, task `0` done. -/
def chainTasks : List Task :=
  [sampleTask 0 0 TaskStatus.Done, sampleTask 1 1 TaskStatus.Todo,
    sampleTask 2 2 TaskStatus.Todo]

/-- Dependencies of the chain fixture. -/
def chainDeps : List TaskDependency :=
  [sampleDep 100 1 0, sampleDep 101 2 1]

/-- Two tasks forming a dependency cycle. -/
def cyclicTasks : List Task :=
  [sampleTask 0 0 TaskStatus.Todo, sampleTask 1 0 TaskStatus.Todo]

/-- A two-edge cycle between the two tasks. -/
def cyclicDeps : List TaskDependency :=
  [sampleDep 100 0 1, sampleDep 101 1 0]

/-- Tasks for the `get_tasks_unblocked_by_completion` counterexample: task 0
depends on task 1 (todo) and on task 2 (done). -/
def c7Tasks : List Task :=
  [sampleTask 0 0 TaskStatus.Todo, sampleTask 1 0 TaskStatus.Todo,
    sampleTask 2 0 TaskStatus.Done]

/-- Dependencies for the `get_tasks_unblocked_by_completion`
counterexample. -/
def c7Deps : List TaskDependency :=
  [sampleDep 100 0 1, sampleDep 101 0 2]

/-- The plan of the `get_tasks_unblocked_by_completion` counterexample. -/
def c7Plan : ExecutionPlan :=
  build_execution_plan c7Tasks c7Deps

/-- Two independent tasks whose input order disagrees with the
`(created_at, id)` order. -/
def c4Tasks : List Task :=
  [sampleTask 0 10 TaskStatus.Todo, sampleTask 1 5 TaskStatus.Todo]

/-- An issue fixture (#42). -/
def sampleIssue (number : Nat) (title state : String) : GitHubIssue :=
  { id := "ISSUE-NODE", number := number, title := title
    body := some "remote body", state := state, url := "https://example/42"
    created_at := 0, updated_at := 7, closed_at := none, author_login := none
    assignees := [], labels := [], milestone := none }

/-- A project-item fixture. -/
def sampleItem (issue : Option GitHubIssue) : GitHubProjectItem :=
  { id := "ITEM-NODE", issue := issue, field_values := [] }

/-- A project-link fixture. -/
def sampleLink : GitHubProjectLink :=
  { id := 1, project_id := 0, github_project_id := "PVT", sync_enabled := true
    last_sync_at := none }

/-- A mapping fixture binding issue #42 of the sample link to a task. -/
def sampleMapping (task_id : Nat) (dir : SyncDirection) : GitHubIssueMapping :=
  { id := 9, task_id := task_id, github_project_link_id := 1
    github_issue_number := 42, github_issue_id := "ISSUE-NODE"
    github_issue_url := "https://example/42", sync_direction := dir
    last_synced_at := none, github_updated_at := none, vibe_updated_at := none
    created_at := 0, updated_at := 0 }

/-- A sync-state fixture: one local task (id 5, `InProgress`) mapped
bidirectionally to issue #42. -/
def sampleSyncState : SyncState :=
  { tasks := [sampleTask 5 0 TaskStatus.InProgress]
    mappings := [sampleMapping 5 SyncDirection.Bidirectional]
    properties := [], links := [sampleLink], now := 10
    fresh_ids := [100, 101, 102, 103, 104] }

/-- A sync-state fixture whose mapping is `VibeToGithub` (remote-to-local
sync disabled). -/
def vtgSyncState : SyncState :=
  { sampleSyncState with mappings := [sampleMapping 5 SyncDirection.VibeToGithub] }

/-! ## Helper lemmas -/

lemma eraseDupsLoop_of_nodup {α} [BEq α] [LawfulBEq α] (as : List α) :
    ∀ bs : List α, (∀ a ∈ as, a ∉ bs) → as.Nodup →
      List.eraseDups.loop as bs = bs.reverse ++ as := by
  induction as with
  | nil => intro bs _ _; simp [List.eraseDups.loop]
  | cons a as ih =>
    intro bs hdisj hnd
    have helem : List.elem a bs = false := by
      have : a ∉ bs := hdisj a (List.mem_cons_self a as)
      simpa [List.elem_eq_mem] using this
    rw [List.eraseDups.loop, helem]
    rw [ih (a :: bs) ?_ (List.Nodup.of_cons hnd)]
    · simp
    · intro x hx
      rcases List.nodup_cons.mp hnd with ⟨hna, _⟩
      intro hxab
      rcases List.mem_cons.mp hxab with h | h
      · exact hna (h ▸ hx)
      · exact hdisj x (List.mem_cons_of_mem a hx) h

lemma eraseDups_of_nodup {α} [BEq α] [LawfulBEq α] {l : List α}
    (h : l.Nodup) : l.eraseDups = l := by
  unfold List.eraseDups
  rw [eraseDupsLoop_of_nodup l [] (by simp) h]
  simp

lemma find?_id_eq {l : List Task} (h : (l.map Task.id).Nodup) {t : Task}
    (ht : t ∈ l) : l.find? (fun u => u.id == t.id) = some t := by
  induction l with
  | nil => cases ht
  | cons a l ih =>
    rcases List.mem_cons.mp ht with rfl | hmem
    · simp [List.find?]
    · have hne : (a.id == t.id) = false := by
        have : a.id ∉ l.map Task.id := (List.nodup_cons.mp h).1
        have htid : t.id ∈ l.map Task.id := List.mem_map_of_mem Task.id hmem
        simp only [beq_eq_false_iff_ne, ne_eq]
        intro hEq
        exact this (hEq ▸ htid)
      rw [List.find?, hne]
      exact ih (List.nodup_cons.mp h).2 hmem

lemma task_map_get_eq {tasks : List Task} (h : (tasks.map Task.id).Nodup)
    {t : Task} (ht : t ∈ tasks) : task_map_get tasks t.id = some t := by
  unfold task_map_get
  have hrev : (tasks.reverse.map Task.id).Nodup := by
    rw [List.map_reverse]
    exact List.nodup_reverse.mpr h
  exact find?_id_eq hrev (List.mem_reverse.mpr ht)

lemma task_map_get_some {tasks : List Task} {x : Nat} {t : Task}
    (h : task_map_get tasks x = some t) : t ∈ tasks ∧ t.id = x := by
  unfold task_map_get at h
  refine ⟨List.mem_reverse.mp (List.mem_of_find?_eq_some h), ?_⟩
  have := List.find?_some h
  simpa using this

lemma nodup_length_le {l l' : List Nat} (h : l.Nodup) (hs : ∀ x ∈ l, x ∈ l') :
    l.length ≤ l'.length := by
  classical
  calc l.length = l.toFinset.card := (List.toFinset_card_of_nodup h).symm
    _ ≤ l'.toFinset.card := Finset.card_le_card (by
        intro x hx
        rw [List.mem_toFinset] at *
        exact hs x hx)
    _ ≤ l'.length := l'.toFinset_card_le

/-! ## Claim C6: structurally invalid transitions -/

/-- The claim of C6 fails on the code at a same-status pair: the state
machine table does not contain `Done → Done`, yet `validate_transition`
short-circuits equal statuses to `Valid` before consulting the table. -/
theorem c6_counterexample :
    is_valid_transition TaskStatus.Done TaskStatus.Done = false ∧
    validate_transition (sampleTask 0 0 TaskStatus.Done) TaskStatus.Done
      [sampleTask 0 0 TaskStatus.Done] [] = TransitionValidation.Valid := by
  constructor <;> rfl

/-- C6 (amended): for every task, target status, task list and dependency
list, whenever the current and target statuses differ and
`is_valid_transition` rejects the pair, `validate_transition` does not
return `Valid`.  (The original claim fails only for same-status no-op
transitions, which `validate_transition` accepts before consulting
`is_valid_transition`.) -/
theorem c6_invalid_never_valid (task : Task) (new_status : TaskStatus)
    (all_tasks : List Task) (dependencies : List TaskDependency)
    (hne : task.status ≠ new_status)
    (hinv : is_valid_transition task.status new_status = false) :
    validate_transition task new_status all_tasks dependencies ≠
      TransitionValidation.Valid := by
  unfold validate_transition
  simp [hne, hinv]

/-- Witness for C6: the amended theorem applied at the concrete illegal pair
`Todo → Done`. -/
theorem c6_witness :
    validate_transition (sampleTask 0 0 TaskStatus.Todo) TaskStatus.Done [] []
      ≠ TransitionValidation.Valid :=
  c6_invalid_never_valid (sampleTask 0 0 TaskStatus.Todo) TaskStatus.Done [] []
    (by decide) (by decide)

/-! ## Claim C9: stop from any state -/

/-- The claim of C9 fails on the code in the `Idle` state: `stop()` returns
immediately without emitting any event. -/
theorem c9_counterexample :
    (orchestrator_stop OrchestratorState.Idle).1 = OrchestratorState.Idle ∧
    (orchestrator_stop OrchestratorState.Idle).2 = [] ∧
    ([] : List OrchestratorEvent) ≠
      [OrchestratorEvent.StateChanged OrchestratorState.Stopping,
        OrchestratorEvent.StateChanged OrchestratorState.Idle] := by
  refine ⟨rfl, rfl, by simp⟩

/-- C9 (amended): `stop()` succeeds from every state and leaves the state
`Idle`; from any state other than `Idle` it emits
`StateChanged{Stopping}` followed by `StateChanged{Idle}`; from `Idle` it
emits nothing. -/
theorem c9_stop_behaviour (s : OrchestratorState) :
    (orchestrator_stop s).1 = OrchestratorState.Idle ∧
    (s ≠ OrchestratorState.Idle →
      (orchestrator_stop s).2 =
        [OrchestratorEvent.StateChanged OrchestratorState.Stopping,
          OrchestratorEvent.StateChanged OrchestratorState.Idle]) ∧
    (s = OrchestratorState.Idle → (orchestrator_stop s).2 = []) := by
  cases s <;> simp [orchestrator_stop]

/-- Witness for C9: the amended theorem applied in the `Running` state. -/
theorem c9_witness :
    (orchestrator_stop OrchestratorState.Running).2 =
      [OrchestratorEvent.StateChanged OrchestratorState.Stopping,
        OrchestratorEvent.StateChanged OrchestratorState.Idle] :=
  (c9_stop_behaviour OrchestratorState.Running).2.1 (by simp)

/-! ## Claim C5: behaviour on cyclic input -/

/-- The claim of C5 fails on the code: `build_execution_plan` is a total
function with no error channel.  On a two-task cycle it returns a plan whose
level list is empty while `total_tasks` is 2 — the cyclic tasks are silently
dropped, no `CorruptGraph` error exists anywhere in the scheduler. -/
theorem c5_counterexample :
    (build_execution_plan cyclicTasks cyclicDeps).levels = [] ∧
    (build_execution_plan cyclicTasks cyclicDeps).total_tasks = 2 := by
  constructor <;> rfl

/-! ## Claim C7: tasks unblocked by a completion -/

/-- The claim of C7 fails on the code: `get_tasks_unblocked_by_completion`
inspects only the `Blocked` readiness list, not the dependency set.  In the
fixture, task 0 depends on both task 1 (todo) and task 2 (done); its
readiness is `Blocked [1]`, so it is returned for completion of task 1 even
though its dependency set is `{1, 2} ≠ {1}`. -/
theorem c7_counterexample :
    ¬ (∀ x ∈ get_tasks_unblocked_by_completion c7Plan 1,
        ∃ lv ∈ c7Plan.levels, ∃ et ∈ lv.tasks, et.task_id = x ∧
          et.readiness = TaskReadiness.Blocked [1] ∧
          (∀ y ∈ et.dependencies, y = 1) ∧ 1 ∈ et.dependencies) := by
  decide

/-- C7 (amended): for every execution plan and task id `t`, every id
returned by `get_tasks_unblocked_by_completion plan t` belongs to a task of
the plan whose readiness is `Blocked` with blocking list exactly `[t]`.
(The original claim additionally demanded that the dependency set be `{t}`,
which the function does not check: a dependency on an already-`Done` task
does not appear in the blocking list.) -/
theorem c7_unblocked_subset (plan : ExecutionPlan) (t : Nat) :
    ∀ x ∈ get_tasks_unblocked_by_completion plan t,
      ∃ lv ∈ plan.levels, ∃ et ∈ lv.tasks, et.task_id = x ∧
        et.readiness = TaskReadiness.Blocked [t] := by
  intro x hx
  unfold get_tasks_unblocked_by_completion at hx
  rw [List.mem_filterMap] at hx
  obtain ⟨et, hmem, hsome⟩ := hx
  rw [List.mem_flatMap] at hmem
  obtain ⟨lv, hlv, het⟩ := hmem
  refine ⟨lv, hlv, et, het, ?_⟩
  cases hr : et.readiness with
  | Ready => rw [hr] at hsome; simp at hsome
  | InProgress => rw [hr] at hsome; simp at hsome
  | Completed => rw [hr] at hsome; simp at hsome
  | Cancelled => rw [hr] at hsome; simp at hsome
  | Blocked ids =>
    rw [hr] at hsome
    change (if (ids.length == 1 && ids.getD 0 0 == t) = true then
      some et.task_id else none) = some x at hsome
    by_cases hc : (ids.length == 1 && ids.getD 0 0 == t) = true
    · rw [if_pos hc] at hsome
      have hid : et.task_id = x := by simpa using hsome
      simp only [Bool.and_eq_true, beq_iff_eq] at hc
      obtain ⟨hlen, hget⟩ := hc
      rcases ids with _ | ⟨a, rest⟩
      · simp at hlen
      · rcases rest with _ | ⟨b, rest⟩
        · simp only [List.getD_cons_zero] at hget
          exact ⟨hid, by rw [hget]⟩
        · simp at hlen
    · rw [if_neg hc] at hsome
      simp at hsome

/-- Witness for C7: the amended theorem applied to the concrete fixture
plan, where task 0 is unblocked by completion of task 1. -/
theorem c7_witness :
    ∃ lv ∈ c7Plan.levels, ∃ et ∈ lv.tasks, et.task_id = 0 ∧
      et.readiness = TaskReadiness.Blocked [1] :=
  c7_unblocked_subset c7Plan 1 0 (by decide)

/-! ## Claim C4: order of tasks within a level -/

/-- The claim of C4 fails on the code: `topological_sort_levels` applies no
sort.  With two dependency-free tasks whose input order disagrees with the
`(created_at, id)` order, the single level lists them in input order, which
is not sorted by `(created_at asc, id asc)`. -/
theorem c4_counterexample :
    ¬ (∀ lv ∈ (build_execution_plan c4Tasks []).levels,
        sortedByKey (lv.tasks.map (createdIdKey c4Tasks)) = true) := by
  decide

/-! ## Bridging lemmas: plan members and the executable-task table -/

lemma id_inj {tasks : List Task} (h : (tasks.map Task.id).Nodup) {t t' : Task}
    (ht : t ∈ tasks) (ht' : t' ∈ tasks) (heq : t.id = t'.id) : t = t' := by
  have h1 := task_map_get_eq h ht
  have h2 := task_map_get_eq h ht'
  rw [← heq] at h2
  rw [h1] at h2
  injection h2

lemma exec_lookup (tasks : List Task) (dependencies : List TaskDependency)
    (id : Nat) :
    executable_map_get (tasks.map (mkExecutableTask tasks dependencies)) id
      = (task_map_get tasks id).map (mkExecutableTask tasks dependencies) := by
  unfold executable_map_get task_map_get
  rw [← List.map_reverse, List.find?_map]
  rfl

lemma plan_member {tasks : List Task} {dependencies : List TaskDependency}
    {lv : ExecutionLevel} {et : ExecutableTask}
    (hlv : lv ∈ (build_execution_plan tasks dependencies).levels)
    (het : et ∈ lv.tasks) :
    ∃ t ∈ tasks, t.id = et.task_id ∧ et = mkExecutableTask tasks dependencies t := by
  simp only [build_execution_plan, List.mem_filter, List.mem_map] at hlv
  obtain ⟨⟨p, _hp, rfl⟩, _⟩ := hlv
  simp only [List.mem_filterMap] at het
  obtain ⟨id, _hid, hlook⟩ := het
  rw [exec_lookup, Option.map_eq_some'] at hlook
  obtain ⟨t, hfind, rfl⟩ := hlook
  obtain ⟨htmem, htid⟩ := task_map_get_some hfind
  exact ⟨t, htmem, by simp [mkExecutableTask], rfl⟩

lemma deps_mem_ids {tasks : List Task} {dependencies : List TaskDependency}
    (hedge : EdgesWithin tasks dependencies) {tid x : Nat}
    (hx : x ∈ deps_for_task dependencies tid) : x ∈ tasks.map Task.id := by
  unfold deps_for_task at hx
  simp only [List.mem_map, List.mem_filter] at hx
  obtain ⟨d, ⟨hd, _⟩, rfl⟩ := hx
  exact (hedge d hd).2

lemma blocking_mem_iff {tasks : List Task} {dependencies : List TaskDependency}
    (hnodup : (tasks.map Task.id).Nodup)
    (hedge : EdgesWithin tasks dependencies) (tid x : Nat) :
    (x ∈ (deps_for_task dependencies tid).filter (fun dep_id =>
        match task_map_get tasks dep_id with
        | some dep_task => dep_task.status != TaskStatus.Done
        | none => false)) ↔
      x ∈ deps_for_task dependencies tid ∧
        ∃ dt ∈ tasks, dt.id = x ∧ dt.status ≠ TaskStatus.Done := by
  rw [List.mem_filter]
  constructor
  · rintro ⟨hmem, hpred⟩
    refine ⟨hmem, ?_⟩
    cases hget : task_map_get tasks x with
    | none => rw [hget] at hpred; simp at hpred
    | some dt =>
      rw [hget] at hpred
      obtain ⟨hdt, hdtid⟩ := task_map_get_some hget
      exact ⟨dt, hdt, hdtid, by simpa using hpred⟩
  · rintro ⟨hmem, dt, hdt, hdtid, hstatus⟩
    refine ⟨hmem, ?_⟩
    have : task_map_get tasks x = some dt := by
      rw [← hdtid]; exact task_map_get_eq hnodup hdt
    rw [this]
    simpa using hstatus

/-! ## Claim C2: readiness computation -/

/-- C2: for every task list with distinct ids and every dependency list
whose edges connect tasks in the list and form an acyclic graph, every
executable task of the plan carries the readiness prescribed by
`calculate_readiness`: `Done → Completed`, `Cancelled → Cancelled`,
`InProgress`/`InReview → InProgress`, and for `Todo` either `Ready` (all
dependencies `Done`) or `Blocked` with blocking ids exactly the
dependencies whose task is not `Done`, that set being nonempty. -/
theorem c2_readiness (tasks : List Task) (dependencies : List TaskDependency)
    (hnodup : (tasks.map Task.id).Nodup)
    (hedge : EdgesWithin tasks dependencies)
    (_hacyc : AcyclicDeps dependencies) :
    ∀ lv ∈ (build_execution_plan tasks dependencies).levels,
      ∀ et ∈ lv.tasks, ∀ t ∈ tasks, t.id = et.task_id →
        (t.status = TaskStatus.Done → et.readiness = TaskReadiness.Completed) ∧
        (t.status = TaskStatus.Cancelled → et.readiness = TaskReadiness.Cancelled) ∧
        (t.status = TaskStatus.InProgress ∨ t.status = TaskStatus.InReview →
          et.readiness = TaskReadiness.InProgress) ∧
        (t.status = TaskStatus.Todo →
          ((∀ d ∈ deps_for_task dependencies t.id,
              ∃ dt ∈ tasks, dt.id = d ∧ dt.status = TaskStatus.Done) →
            et.readiness = TaskReadiness.Ready) ∧
          (¬ (∀ d ∈ deps_for_task dependencies t.id,
              ∃ dt ∈ tasks, dt.id = d ∧ dt.status = TaskStatus.Done) →
            ∃ ids, et.readiness = TaskReadiness.Blocked ids ∧ ids ≠ [] ∧
              ∀ x, x ∈ ids ↔ x ∈ deps_for_task dependencies t.id ∧
                ∃ dt ∈ tasks, dt.id = x ∧ dt.status ≠ TaskStatus.Done)) := by
  intro lv hlv et het t ht hid
  obtain ⟨t', ht', hid', hmk⟩ := plan_member hlv het
  have hteq : t = t' := id_inj hnodup ht ht' (by rw [hid, ← hid'])
  subst hteq
  have hread : et.readiness
      = calculate_readiness t (deps_for_task dependencies t.id) tasks := by
    rw [hmk]; rfl
  refine ⟨?_, ?_, ?_, ?_⟩
  · intro hs; rw [hread]; simp [calculate_readiness, hs]
  · intro hs; rw [hread]; simp [calculate_readiness, hs]
  · rintro (hs | hs) <;> (rw [hread]; simp [calculate_readiness, hs])
  · intro hs
    rw [hread]
    simp only [calculate_readiness, hs]
    constructor
    · intro hall
      have hempty : (deps_for_task dependencies t.id).filter (fun dep_id =>
          match task_map_get tasks dep_id with
          | some dep_task => dep_task.status != TaskStatus.Done
          | none => false) = [] := by
        rw [List.filter_eq_nil_iff]
        intro d hd
        obtain ⟨dt, hdt, hdtid, hdone⟩ := hall d hd
        have : task_map_get tasks d = some dt := by
          rw [← hdtid]; exact task_map_get_eq hnodup hdt
        rw [this]
        simp [hdone]
      rw [hempty]
      rfl
    · intro hnall
      push_neg at hnall
      obtain ⟨d, hd, hnotdone⟩ := hnall
      obtain ⟨dt, hdtmem, hdtid⟩ := List.mem_map.mp (deps_mem_ids hedge hd)
      have hdtstatus : dt.status ≠ TaskStatus.Done := by
        intro hEq
        exact hnotdone dt hdtmem hdtid hEq
      have hdin : d ∈ (deps_for_task dependencies t.id).filter (fun dep_id =>
          match task_map_get tasks dep_id with
          | some dep_task => dep_task.status != TaskStatus.Done
          | none => false) :=
        (blocking_mem_iff hnodup hedge t.id d).mpr
          ⟨hd, dt, hdtmem, hdtid, hdtstatus⟩
      have hne : ((deps_for_task dependencies t.id).filter (fun dep_id =>
          match task_map_get tasks dep_id with
          | some dep_task => dep_task.status != TaskStatus.Done
          | none => false)) ≠ [] := by
        intro hEq; rw [hEq] at hdin; cases hdin
      refine ⟨_, ?_, hne, ?_⟩
      · rw [if_neg (by simpa [List.isEmpty_iff] using hne)]
      · intro x
        exact blocking_mem_iff hnodup hedge t.id x

/-- Witness for C2: the readiness theorem applied to the chain fixture,
yielding the `Ready` readiness of task 1 (its only dependency, task 0, is
done). -/
theorem c2_witness :
    ∃ lv ∈ (build_execution_plan chainTasks chainDeps).levels,
      ∃ et ∈ lv.tasks, et.task_id = 1 ∧ et.readiness = TaskReadiness.Ready := by
  refine ⟨(build_execution_plan chainTasks chainDeps).levels.getD 1
      { level := 0, tasks := [] }, by decide,
    ((build_execution_plan chainTasks chainDeps).levels.getD 1
      { level := 0, tasks := [] }).tasks.getD 0
      { task_id := 0, status := TaskStatus.Todo
        readiness := TaskReadiness.Ready, dependencies := [], dependents := [] },
    by decide, by decide, ?_⟩
  have := c2_readiness chainTasks chainDeps (by decide)
    (by intro d hd; fin_cases hd <;> simp [chainTasks, sampleTask, sampleDep])
    ⟨fun n => n, by intro d hd; fin_cases hd <;> simp [sampleDep]⟩
    ((build_execution_plan chainTasks chainDeps).levels.getD 1
      { level := 0, tasks := [] }) (by decide)
    (((build_execution_plan chainTasks chainDeps).levels.getD 1
      { level := 0, tasks := [] }).tasks.getD 0
      { task_id := 0, status := TaskStatus.Todo
        readiness := TaskReadiness.Ready, dependencies := [], dependents := [] })
    (by decide) (sampleTask 1 1 TaskStatus.Todo) (by decide) (by decide)
  exact this.2.2.2 (by decide) |>.1 (by decide)

/-! ## Kahn machinery: counting lemmas -/

lemma filter_split_of_imp {α} (l : List α) (p q : α → Bool)
    (h : ∀ x ∈ l, p x = true → q x = true) :
    (l.filter q).length
      = (l.filter p).length + (l.filter (fun x => q x && !p x)).length := by
  induction l with
  | nil => simp
  | cons a l ih =>
    have ha := h a (List.mem_cons_self a l)
    have ih' := ih (fun x hx => h x (List.mem_cons_of_mem a hx))
    by_cases hp : p a = true
    · have hq : q a = true := ha hp
      have hqp : List.filter (fun x => q x && !p x) (a :: l)
          = List.filter (fun x => q x && !p x) l :=
        List.filter_cons_of_neg (by simp [hp])
      rw [List.filter_cons_of_pos hp, List.filter_cons_of_pos hq, hqp,
        List.length_cons, List.length_cons, ih']
      omega
    · cases hq : q a with
      | false =>
        have hqp : List.filter (fun x => q x && !p x) (a :: l)
            = List.filter (fun x => q x && !p x) l :=
          List.filter_cons_of_neg (by simp [hq])
        rw [List.filter_cons_of_neg hp, List.filter_cons_of_neg (by rw [hq]; simp),
          hqp, ih']
      | true =>
        have hqp : List.filter (fun x => q x && !p x) (a :: l)
            = a :: List.filter (fun x => q x && !p x) l :=
          List.filter_cons_of_pos (by
            simp only [hq, Bool.true_and, Bool.not_eq_true']
            simpa using hp)
        rw [List.filter_cons_of_neg hp, List.filter_cons_of_pos hq, hqp,
          List.length_cons, List.length_cons, ih']
        omega

lemma length_filter_le_of_imp {α} (l : List α) (p q : α → Bool)
    (h : ∀ x ∈ l, p x = true → q x = true) :
    (l.filter p).length ≤ (l.filter q).length := by
  rw [filter_split_of_imp l p q h]
  omega

lemma length_filter_eq_iff_of_imp {α} (l : List α) (p q : α → Bool)
    (h : ∀ x ∈ l, p x = true → q x = true) :
    ((l.filter p).length = (l.filter q).length ↔
      ∀ x ∈ l, q x = true → p x = true) := by
  rw [filter_split_of_imp l p q h]
  constructor
  · intro hEq x hx hq
    have hzero : (l.filter (fun x => q x && !p x)).length = 0 := by omega
    rw [List.length_eq_zero, List.filter_eq_nil_iff] at hzero
    have := hzero x hx
    by_cases hp : p x = true
    · exact hp
    · exfalso
      apply this
      simp [hq, hp]
  · intro hall
    have hzero : (l.filter (fun x => q x && !p x)) = [] := by
      rw [List.filter_eq_nil_iff]
      intro x hx hcontr
      rw [Bool.and_eq_true] at hcontr
      obtain ⟨hqx, hpx⟩ := hcontr
      rw [Bool.not_eq_true'] at hpx
      have := hall x hx hqx
      rw [this] at hpx
      cases hpx
    rw [hzero]
    simp

lemma foldl_inner_flatMap {α β γ : Type} (f : α → List β) (g : γ → β → γ)
    (l : List α) (init : γ) :
    l.foldl (fun st u => (f u).foldl g st) init = (l.flatMap f).foldl g init := by
  induction l generalizing init with
  | nil => simp
  | cons a l ih => simp [List.flatMap_cons, List.foldl_append, ih]

lemma updFn_same (f : Nat → Nat) (k v : Nat) : updFn f k v k = v := by
  simp [updFn]

lemma updFn_other (f : Nat → Nat) (k v x : Nat) (h : x ≠ k) :
    updFn f k v x = f x := by
  simp [updFn, h]

/-- Characterization of the inner dependent-visiting fold of Kahn's
algorithm: given that no task is visited more often than its current
degree, the final degree of `x` is its initial degree minus its visit
count, and the tasks appended to the frontier are exactly those whose
visit count equals their (positive) degree, each appended once. -/
lemma procFold (taskIds : List Nat) :
    ∀ (P : List Nat) (deg : Nat → Nat) (acc : List Nat),
      (∀ v ∈ taskIds, P.count v ≤ deg v) →
      ((∀ x, (P.foldl (procStep taskIds) (deg, acc)).1 x =
          if x ∈ taskIds then deg x - P.count x else deg x) ∧
       ∃ ps, (P.foldl (procStep taskIds) (deg, acc)).2 = acc ++ ps ∧ ps.Nodup ∧
         ∀ u, u ∈ ps ↔ u ∈ taskIds ∧ 1 ≤ deg u ∧ P.count u = deg u) := by
  intro P
  induction P with
  | nil =>
    intro deg acc _h
    refine ⟨fun x => by simp, [], by simp, List.nodup_nil, fun u => ?_⟩
    simp only [List.not_mem_nil, false_iff, not_and]
    intro _ h1 h2
    simp [List.count_nil] at h2
    omega
  | cons v P ih =>
    intro deg acc h
    by_cases hv : v ∈ taskIds
    · have hvc : taskIds.contains v = true := by simpa using hv
      have hvcount : P.count v + 1 ≤ deg v := by
        have := h v hv
        rw [List.count_cons] at this
        simpa using this
      by_cases hdeg1 : deg v = 1
      · -- the degree hits zero: v is pushed
        have hcount0 : P.count v = 0 := by omega
        have hbranch : procStep taskIds (deg, acc) v =
            (updFn deg v 0, acc ++ [v]) := by
          simp [procStep, hv, hdeg1]
        have ihh := ih (updFn deg v 0) (acc ++ [v]) (by
          intro w hw
          by_cases hwv : w = v
          · subst hwv; rw [updFn_same]; omega
          · rw [updFn_other _ _ _ _ hwv]
            have := h w hw
            rw [List.count_cons] at this
            have hne : (v == w) = false := by
              simp [beq_eq_false_iff_ne]
              exact fun hEq => hwv hEq.symm
            rw [hne] at this
            simpa using this)
        rw [List.foldl_cons, hbranch]
        obtain ⟨ihdeg, ps₁, hps₁, hnd₁, hmem₁⟩ := ihh
        constructor
        · intro x
          rw [ihdeg x]
          by_cases hx : x ∈ taskIds
          · by_cases hxv : x = v
            · subst hxv
              rw [updFn_same]
              simp only [hx, if_true]
              rw [List.count_cons]
              simp only [beq_self_eq_true, if_true]
              omega
            · rw [updFn_other _ _ _ _ hxv]
              simp only [hx, if_true]
              rw [List.count_cons]
              have hne : (v == x) = false := by
                simp [beq_eq_false_iff_ne]
                exact fun hEq => hxv hEq.symm
              rw [hne]
              simp
          · have hxv : x ≠ v := fun hEq => hx (hEq ▸ hv)
            rw [updFn_other _ _ _ _ hxv]
            simp [hx]
        · refine ⟨v :: ps₁, by rw [hps₁, List.append_assoc]; rfl, ?_, ?_⟩
          · rw [List.nodup_cons]
            refine ⟨fun hvin => ?_, hnd₁⟩
            have := (hmem₁ v).mp hvin
            rw [updFn_same] at this
            omega
          · intro u
            rw [List.mem_cons, hmem₁ u]
            by_cases huv : u = v
            · subst huv
              rw [updFn_same]
              simp only [true_or, true_iff]
              refine ⟨hv, by omega, ?_⟩
              rw [List.count_cons]
              simp [hcount0, hdeg1]
            · rw [updFn_other _ _ _ _ huv]
              simp only [huv, false_or]
              rw [List.count_cons]
              have hne : (v == u) = false := by
                simp [beq_eq_false_iff_ne]
                exact fun hEq => huv hEq.symm
              rw [hne]
              simp
      · -- the degree stays positive: v is not pushed
        have hdegge : 2 ≤ deg v := by omega
        have hne0 : (deg v - 1 == 0) = false := by
          simp [Nat.sub_eq_zero_iff_le]
          omega
        have hbranch : procStep taskIds (deg, acc) v =
            (updFn deg v (deg v - 1), acc) := by
          simp [procStep, hv, hne0]
        have ihh := ih (updFn deg v (deg v - 1)) acc (by
          intro w hw
          by_cases hwv : w = v
          · subst hwv; rw [updFn_same]; omega
          · rw [updFn_other _ _ _ _ hwv]
            have := h w hw
            rw [List.count_cons] at this
            have hne : (v == w) = false := by
              simp [beq_eq_false_iff_ne]
              exact fun hEq => hwv hEq.symm
            rw [hne] at this
            simpa using this)
        rw [List.foldl_cons, hbranch]
        obtain ⟨ihdeg, ps₁, hps₁, hnd₁, hmem₁⟩ := ihh
        constructor
        · intro x
          rw [ihdeg x]
          by_cases hx : x ∈ taskIds
          · by_cases hxv : x = v
            · subst hxv
              rw [updFn_same]
              simp only [hx, if_true]
              rw [List.count_cons]
              simp only [beq_self_eq_true, if_true]
              omega
            · rw [updFn_other _ _ _ _ hxv]
              simp only [hx, if_true]
              rw [List.count_cons]
              have hne : (v == x) = false := by
                simp [beq_eq_false_iff_ne]
                exact fun hEq => hxv hEq.symm
              rw [hne]
              simp
          · have hxv : x ≠ v := fun hEq => hx (hEq ▸ hv)
            rw [updFn_other _ _ _ _ hxv]
            simp [hx]
        · refine ⟨ps₁, hps₁, hnd₁, ?_⟩
          intro u
          rw [hmem₁ u]
          by_cases huv : u = v
          · subst huv
            rw [updFn_same]
            constructor
            · rintro ⟨hu1, hu2, hu3⟩
              refine ⟨hu1, by omega, ?_⟩
              rw [List.count_cons]
              simp only [beq_self_eq_true, if_true]
              omega
            · rintro ⟨hu1, _hu2, hu3⟩
              rw [List.count_cons] at hu3
              simp only [beq_self_eq_true, if_true] at hu3
              exact ⟨hu1, by omega, by omega⟩
          · rw [updFn_other _ _ _ _ huv]
            rw [List.count_cons]
            have hne : (v == u) = false := by
              simp [beq_eq_false_iff_ne]
              exact fun hEq => huv hEq.symm
            rw [hne]
            simp
    · have hvc : taskIds.contains v = false := by simpa using hv
      have hbranch : procStep taskIds (deg, acc) v = (deg, acc) := by
        simp [procStep, hv]
      rw [List.foldl_cons, hbranch]
      have ihh := ih deg acc (by
        intro w hw
        have := h w hw
        rw [List.count_cons] at this
        omega)
      obtain ⟨ihdeg, ps₁, hps₁, hnd₁, hmem₁⟩ := ihh
      constructor
      · intro x
        rw [ihdeg x]
        by_cases hx : x ∈ taskIds
        · simp only [hx, if_true]
          rw [List.count_cons]
          have hne : (v == x) = false := by
            simp [beq_eq_false_iff_ne]
            exact fun hEq => hv (hEq ▸ hx)
          rw [hne]
          simp
        · simp [hx]
      · refine ⟨ps₁, hps₁, hnd₁, ?_⟩
        intro u
        rw [hmem₁ u]
        by_cases hu : u ∈ taskIds
        · rw [List.count_cons]
          have hne : (v == u) = false := by
            simp [beq_eq_false_iff_ne]
            exact fun hEq => hv (hEq ▸ hu)
          rw [hne]
          simp
        · simp [hu]

lemma contains_append_or (D cur : List Nat) (d : Nat) :
    ((D ++ cur).contains d) = (D.contains d || cur.contains d) := by
  by_cases h1 : d ∈ D <;> by_cases h2 : d ∈ cur <;>
    simp [List.elem_eq_mem, List.mem_append, h1, h2]

lemma length_filter_or_disjoint {α} (l : List α) (p q : α → Bool)
    (h : ∀ x ∈ l, p x = true → q x = false) :
    (l.filter (fun x => p x || q x)).length
      = (l.filter p).length + (l.filter q).length := by
  induction l with
  | nil => simp
  | cons a l ih =>
    have ih' := ih (fun x hx => h x (List.mem_cons_of_mem a hx))
    by_cases hp : p a = true
    · have hq : q a = false := h a (List.mem_cons_self a l) hp
      have h1 : List.filter (fun x => p x || q x) (a :: l)
          = a :: List.filter (fun x => p x || q x) l :=
        List.filter_cons_of_pos (by simp [hp])
      rw [h1, List.filter_cons_of_pos hp, List.filter_cons_of_neg (by simp [hq]),
        List.length_cons, List.length_cons, ih']
      omega
    · have hp' : p a = false := by simpa using hp
      cases hq : q a with
      | true =>
        have h1 : List.filter (fun x => p x || q x) (a :: l)
            = a :: List.filter (fun x => p x || q x) l :=
          List.filter_cons_of_pos (by simp [hq])
        rw [h1, List.filter_cons_of_neg hp, List.filter_cons_of_pos hq,
          List.length_cons, List.length_cons, ih']
        omega
      | false =>
        have h1 : List.filter (fun x => p x || q x) (a :: l)
            = List.filter (fun x => p x || q x) l :=
          List.filter_cons_of_neg (by simp [hp', hq])
        rw [h1, List.filter_cons_of_neg hp, List.filter_cons_of_neg (by simp [hq]),
          ih']

lemma count_dependents (deps : List TaskDependency) (s u : Nat) :
    (dependents_of_task deps s).count u
      = ((deps_for_task deps u).filter (fun d => d == s)).length := by
  unfold dependents_of_task deps_for_task
  rw [List.count_eq_countP, List.countP_map, ← List.countP_eq_length_filter,
    List.countP_map, List.countP_filter, List.countP_filter]
  exact List.countP_congr (fun r _ => by
    simp only [Function.comp_apply, Bool.and_eq_true]
    exact and_comm)

lemma count_flatMap_dependents (deps : List TaskDependency) :
    ∀ (cur : List Nat), cur.Nodup → ∀ u : Nat,
      ((cur.flatMap (fun s => dependents_of_task deps s)).count u)
        = ((deps_for_task deps u).filter (fun d => cur.contains d)).length := by
  intro cur
  induction cur with
  | nil =>
    intro _ u
    have : (fun d => ([] : List Nat).contains d) = (fun _ : Nat => false) :=
      funext (fun d => List.contains_nil)
    simp [this, List.filter_false]
  | cons c cur ih =>
    intro hnd u
    obtain ⟨hc, hnd'⟩ := List.nodup_cons.mp hnd
    rw [List.flatMap_cons, List.count_append, count_dependents, ih hnd' u]
    have hfun : (fun d => (c :: cur).contains d)
        = (fun d => (d == c) || cur.contains d) :=
      funext (fun d => List.contains_cons)
    rw [hfun, length_filter_or_disjoint]
    intro x _ hxc
    have hxceq : x = c := by simpa using hxc
    subst hxceq
    simpa using hc

lemma degSpec_nil (deps : List TaskDependency) (u : Nat) :
    degSpec deps [] u = (deps_for_task deps u).length := by
  unfold degSpec
  have : (fun d => !(([] : List Nat).contains d)) = (fun _ : Nat => true) :=
    funext (fun d => by simp)
  rw [this, List.filter_true]

lemma degSpec_zero_iff (deps : List TaskDependency) (D : List Nat) (u : Nat) :
    degSpec deps D u = 0 ↔ ∀ d ∈ deps_for_task deps u, d ∈ D := by
  unfold degSpec
  rw [List.length_eq_zero, List.filter_eq_nil_iff]
  constructor
  · intro h d hd
    have := h d hd
    simpa using this
  · intro h d hd
    simpa using h d hd

lemma cur_imp_notD {deps : List TaskDependency} {D cur : List Nat}
    (hdisj : ∀ x ∈ cur, x ∉ D) (u : Nat) :
    ∀ d ∈ deps_for_task deps u, cur.contains d = true → (!(D.contains d)) = true := by
  intro d _ hd
  have hdc : d ∈ cur := by simpa using hd
  have := hdisj d hdc
  simpa using this

lemma cur_count_le_degSpec (deps : List TaskDependency) (D cur : List Nat)
    (hdisj : ∀ x ∈ cur, x ∉ D) (u : Nat) :
    ((deps_for_task deps u).filter (fun d => cur.contains d)).length
      ≤ degSpec deps D u :=
  length_filter_le_of_imp _ _ _ (cur_imp_notD hdisj u)

lemma degSpec_sub (deps : List TaskDependency) (D cur : List Nat)
    (hdisj : ∀ x ∈ cur, x ∉ D) (u : Nat) :
    degSpec deps D u
        - ((deps_for_task deps u).filter (fun d => cur.contains d)).length
      = degSpec deps (D ++ cur) u := by
  unfold degSpec
  rw [filter_split_of_imp (deps_for_task deps u) (fun d => cur.contains d)
    (fun d => !(D.contains d)) (cur_imp_notD hdisj u)]
  have hfun : (fun d => !((D ++ cur).contains d))
      = (fun d => (!(D.contains d)) && !(cur.contains d)) :=
    funext (fun d => by rw [contains_append_or, Bool.not_or])
  rw [hfun]
  have hcong : (fun x => (!(D.contains x)) && !(cur.contains x))
      = (fun x => (!(D.contains x)) && !(fun d => cur.contains d) x) := rfl
  omega

lemma cur_count_eq_degSpec_iff (deps : List TaskDependency) (D cur : List Nat)
    (hdisj : ∀ x ∈ cur, x ∉ D) (u : Nat) :
    (((deps_for_task deps u).filter (fun d => cur.contains d)).length
        = degSpec deps D u)
      ↔ ∀ d ∈ deps_for_task deps u, d ∉ D → d ∈ cur := by
  unfold degSpec
  rw [length_filter_eq_iff_of_imp _ _ _ (cur_imp_notD hdisj u)]
  constructor
  · intro h d hd hdD
    have := h d hd (by simpa using hdD)
    simpa using this
  · intro h d hd hdD
    have hdD' : d ∉ D := by simpa using hdD
    have := h d hd hdD'
    simpa using this

/-- One iteration of the Kahn loop: draining the frontier `cur` from
drained-set `D` leaves degrees at `degSpec (D ++ cur)`, and the next
frontier is exactly the set of tasks outside `D ++ cur` all of whose
dependencies lie inside it, duplicate-free. -/
lemma processLevel_spec (deps : List TaskDependency) (tids : List Nat)
    (D cur : List Nat) (deg : Nat → Nat)
    (hdeg : ∀ u ∈ tids, deg u = degSpec deps D u)
    (hcur : ∀ u, u ∈ cur ↔ u ∈ tids ∧ u ∉ D ∧
      ∀ d ∈ deps_for_task deps u, d ∈ D)
    (hcurnd : cur.Nodup)
    (hD : ∀ x ∈ D, ∀ d ∈ deps_for_task deps x, d ∈ D) :
    (∀ u ∈ tids,
      (processLevel tids (fun s => dependents_of_task deps s) deg cur).1 u
        = degSpec deps (D ++ cur) u) ∧
    (processLevel tids (fun s => dependents_of_task deps s) deg cur).2.Nodup ∧
    (∀ u, u ∈ (processLevel tids (fun s => dependents_of_task deps s) deg cur).2 ↔
      u ∈ tids ∧ u ∉ D ++ cur ∧ ∀ d ∈ deps_for_task deps u, d ∈ D ++ cur) ∧
    (∀ x ∈ D ++ cur, ∀ d ∈ deps_for_task deps x, d ∈ D ++ cur) := by
  have hdisj : ∀ x ∈ cur, x ∉ D := fun x hx => ((hcur x).mp hx).2.1
  have hdepD : ∀ x ∈ cur, ∀ d ∈ deps_for_task deps x, d ∈ D :=
    fun x hx => ((hcur x).mp hx).2.2
  have hfold : processLevel tids (fun s => dependents_of_task deps s) deg cur
      = (cur.flatMap (fun s => dependents_of_task deps s)).foldl
          (procStep tids) (deg, []) := by
    unfold processLevel
    exact foldl_inner_flatMap _ _ _ _
  have hcount : ∀ u : Nat,
      (cur.flatMap (fun s => dependents_of_task deps s)).count u
        = ((deps_for_task deps u).filter (fun d => cur.contains d)).length :=
    count_flatMap_dependents deps cur hcurnd
  have hle : ∀ v ∈ tids,
      (cur.flatMap (fun s => dependents_of_task deps s)).count v ≤ deg v := by
    intro v hv
    rw [hcount v, hdeg v hv]
    exact cur_count_le_degSpec deps D cur hdisj v
  obtain ⟨hdeg', ps, hps, hnd, hmem⟩ :=
    procFold tids (cur.flatMap (fun s => dependents_of_task deps s)) deg [] hle
  refine ⟨?_, ?_, ?_, ?_⟩
  · intro u hu
    rw [hfold, hdeg' u]
    simp only [hu, if_true]
    rw [hdeg u hu, hcount u]
    exact degSpec_sub deps D cur hdisj u
  · rw [hfold, hps]
    simpa using hnd
  · intro u
    rw [hfold, hps, List.nil_append, hmem u]
    constructor
    · rintro ⟨hut, hud, hueq⟩
      rw [hdeg u hut] at hud hueq
      rw [hcount u] at hueq
      have hnotD : ¬ (∀ d ∈ deps_for_task deps u, d ∈ D) := by
        intro hall
        rw [(degSpec_zero_iff deps D u).mpr hall] at hud
        omega
      have hclosure : ∀ d ∈ deps_for_task deps u, d ∈ D ++ cur := by
        intro d hd
        rw [List.mem_append]
        by_cases hdD : d ∈ D
        · exact Or.inl hdD
        · exact Or.inr ((cur_count_eq_degSpec_iff deps D cur hdisj u).mp
            hueq d hd hdD)
      refine ⟨hut, ?_, hclosure⟩
      rw [List.mem_append]
      rintro (h | h)
      · exact hnotD (hD u h)
      · exact hnotD (hdepD u h)
    · rintro ⟨hut, hud, hclo⟩
      have hnotD : ¬ ∀ d ∈ deps_for_task deps u, d ∈ D := by
        intro hall
        have hucur : u ∈ cur := (hcur u).mpr
          ⟨hut, fun huD => hud (List.mem_append.mpr (Or.inl huD)), hall⟩
        exact hud (List.mem_append.mpr (Or.inr hucur))
      refine ⟨hut, ?_, ?_⟩
      · rw [hdeg u hut]
        rcases Nat.eq_zero_or_pos (degSpec deps D u) with h0 | h1
        · exact absurd ((degSpec_zero_iff deps D u).mp h0) hnotD
        · exact h1
      · rw [hdeg u hut, hcount u]
        apply (cur_count_eq_degSpec_iff deps D cur hdisj u).mpr
        intro d hd hdD
        rcases List.mem_append.mp (hclo d hd) with h | h
        · exact absurd h hdD
        · exact h
  · intro x hx d hd
    rcases List.mem_append.mp hx with h | h
    · exact List.mem_append.mpr (Or.inl (hD x h d hd))
    · exact List.mem_append.mpr (Or.inl (hdepD x h d hd))

/-- The Kahn loop, started after drained set `D` with a frontier satisfying
the loop invariant, emits exactly the `Chainy` frontier sequence. -/
lemma kahnLoop_chainy (deps : List TaskDependency) (tids : List Nat) :
    ∀ (fuel : Nat) (D cur : List Nat) (deg : Nat → Nat),
      D.Nodup → (∀ x ∈ D, x ∈ tids) →
      (∀ u ∈ tids, deg u = degSpec deps D u) →
      (∀ u, u ∈ cur ↔ u ∈ tids ∧ u ∉ D ∧ ∀ d ∈ deps_for_task deps u, d ∈ D) →
      cur.Nodup →
      (∀ x ∈ D, ∀ d ∈ deps_for_task deps x, d ∈ D) →
      tids.length < fuel + D.length →
      Chainy deps tids D
        (kahnLoop tids (fun s => dependents_of_task deps s) fuel deg cur) := by
  intro fuel
  induction fuel with
  | zero =>
    intro D cur deg hDnd hDsub _ _ _ _ hfuel
    exfalso
    have := nodup_length_le hDnd hDsub
    omega
  | succ fuel ih =>
    intro D cur deg hDnd hDsub hdeg hcur hcurnd hD hfuel
    by_cases hemp : cur.isEmpty
    · have hstep : kahnLoop tids (fun s => dependents_of_task deps s)
          (fuel + 1) deg cur = [] := by
        rw [kahnLoop, if_pos hemp]
      rw [hstep]
      show ∀ u ∈ tids, (∀ d ∈ deps_for_task deps u, d ∈ D) → u ∈ D
      intro u hu hud
      have hcurempty : cur = [] := List.isEmpty_iff.mp hemp
      by_cases huD : u ∈ D
      · exact huD
      · exfalso
        have : u ∈ cur := (hcur u).mpr ⟨hu, huD, hud⟩
        rw [hcurempty] at this
        cases this
    · have hstep : kahnLoop tids (fun s => dependents_of_task deps s)
          (fuel + 1) deg cur
          = cur :: kahnLoop tids (fun s => dependents_of_task deps s) fuel
              (processLevel tids (fun s => dependents_of_task deps s) deg cur).1
              (processLevel tids (fun s => dependents_of_task deps s) deg cur).2 := by
        rw [kahnLoop, if_neg hemp]
      rw [hstep]
      obtain ⟨h1, h2, h3, h4⟩ := processLevel_spec deps tids D cur deg hdeg hcur hcurnd hD
      have hcurne : cur ≠ [] := by
        intro hc
        rw [hc] at hemp
        exact hemp rfl
      refine ⟨hcur, hcurnd, hcurne, ?_⟩
      have hdisj : D.Disjoint cur := by
        rw [List.disjoint_left]
        intro a haD hacur
        exact ((hcur a).mp hacur).2.1 haD
      apply ih (D ++ cur)
        (processLevel tids (fun s => dependents_of_task deps s) deg cur).2
        (processLevel tids (fun s => dependents_of_task deps s) deg cur).1
        (List.Nodup.append hDnd hcurnd hdisj)
        (by
          intro x hx
          rcases List.mem_append.mp hx with h | h
          · exact hDsub x h
          · exact ((hcur x).mp h).1)
        h1 h3 h2 h4
      have hcl : 1 ≤ cur.length := by
        cases cur with
        | nil => exact absurd rfl hcurne
        | cons a l => simp
      rw [List.length_append]
      omega

/-- The top-level instantiation: for a duplicate-free task list,
`topological_sort_levels` emits the `Chainy` frontier sequence starting
from the empty drained set. -/
lemma topological_chainy (tasks : List Task) (deps : List TaskDependency)
    (hnodup : (tasks.map Task.id).Nodup) :
    Chainy deps (tasks.map Task.id) [] (topological_sort_levels tasks deps) := by
  unfold topological_sort_levels
  rw [eraseDups_of_nodup hnodup]
  apply kahnLoop_chainy deps (tasks.map Task.id) _ [] _ _
    List.nodup_nil (by simp)
  · intro u _
    rw [degSpec_nil]
  · intro u
    constructor
    · intro hu
      rw [List.mem_filter] at hu
      refine ⟨hu.1, by simp, ?_⟩
      have hnil : deps_for_task deps u = [] := by
        have := hu.2
        simp only [beq_iff_eq, List.length_eq_zero] at this
        exact this
      intro d hd
      rw [hnil] at hd
      cases hd
    · rintro ⟨hu1, _, hu3⟩
      rw [List.mem_filter]
      refine ⟨hu1, ?_⟩
      have hnil : deps_for_task deps u = [] := by
        cases h : deps_for_task deps u with
        | nil => rfl
        | cons a l =>
          exfalso
          have := hu3 a (by rw [h]; exact List.mem_cons_self a l)
          cases this
      simp [hnil]
  · exact List.Nodup.filter _ hnodup
  · intro x hx
    cases hx
  · simp only [List.length_map, List.length_nil]
    omega

lemma chainy_flatten_nodup {deps : List TaskDependency} {tids : List Nat} :
    ∀ {Ls : List (List Nat)} {D : List Nat}, Chainy deps tids D Ls →
      D.Nodup → (D ++ Ls.flatten).Nodup := by
  intro Ls
  induction Ls with
  | nil => intro D _ hD; simpa using hD
  | cons L Ls ih =>
    intro D h hD
    obtain ⟨hchar, hnd, _hne, hrest⟩ := h
    have hdisj : D.Disjoint L := by
      rw [List.disjoint_left]
      intro a haD haL
      exact ((hchar a).mp haL).2.1 haD
    have hDL := List.Nodup.append hD hnd hdisj
    have := ih hrest hDL
    rw [List.flatten_cons, ← List.append_assoc]
    exact this

lemma chainy_levels_sub {deps : List TaskDependency} {tids : List Nat} :
    ∀ {Ls : List (List Nat)} {D : List Nat}, Chainy deps tids D Ls →
      ∀ L ∈ Ls, ∀ u ∈ L, u ∈ tids := by
  intro Ls
  induction Ls with
  | nil => intro D _ L hL; cases hL
  | cons L' Ls ih =>
    intro D h L hL u hu
    obtain ⟨hchar, _, _, hrest⟩ := h
    rcases List.mem_cons.mp hL with rfl | hL'
    · exact ((hchar u).mp hu).1
    · exact ih hrest L hL' u hu

lemma chainy_complete {deps : List TaskDependency} {tids : List Nat}
    (hdeps : ∀ (u : Nat), ∀ d ∈ deps_for_task deps u, d ∈ tids)
    (rank : Nat → Nat)
    (hrank : ∀ (u : Nat), ∀ d ∈ deps_for_task deps u, rank d < rank u) :
    ∀ {Ls : List (List Nat)} {D : List Nat}, Chainy deps tids D Ls →
      ∀ u ∈ tids, u ∈ D ++ Ls.flatten := by
  intro Ls
  induction Ls with
  | nil =>
    intro D h u hu
    suffices hS : ∀ n, ∀ v ∈ tids, rank v < n → v ∈ D by
      have := hS (rank u + 1) u hu (by omega)
      simpa using this
    intro n
    induction n with
    | zero => intro v _ hv; omega
    | succ n ihn =>
      intro v hv hvn
      apply h v hv
      intro d hd
      exact ihn d (hdeps v d hd) (by have := hrank v d hd; omega)
  | cons L Ls ih =>
    intro D h u hu
    obtain ⟨_, _, _, hrest⟩ := h
    have := ih hrest u hu
    rw [List.flatten_cons, ← List.append_assoc]
    exact this

lemma chainy_get {deps : List TaskDependency} {tids : List Nat} :
    ∀ {Ls : List (List Nat)} {D : List Nat}, Chainy deps tids D Ls →
      ∀ k (hk : k < Ls.length),
        (∀ u, u ∈ Ls[k] ↔ u ∈ tids ∧ u ∉ (D ++ (Ls.take k).flatten) ∧
          ∀ d ∈ deps_for_task deps u, d ∈ D ++ (Ls.take k).flatten) ∧
        Ls[k].Nodup ∧ Ls[k] ≠ [] := by
  intro Ls
  induction Ls with
  | nil => intro D _ k hk; simp at hk
  | cons L Ls ih =>
    intro D h k hk
    obtain ⟨hchar, hnd, hne, hrest⟩ := h
    cases k with
    | zero =>
      simp only [List.getElem_cons_zero, List.take_zero, List.flatten_nil,
        List.append_nil]
      exact ⟨hchar, hnd, hne⟩
    | succ k =>
      have hk' : k < Ls.length := by simpa using hk
      have hthis := ih hrest k hk'
      simp only [List.getElem_cons_succ]
      rw [List.take_succ_cons, List.flatten_cons, ← List.append_assoc]
      exact hthis

lemma flatten_unique_level {Ls : List (List Nat)} (h : Ls.flatten.Nodup)
    {i j : Nat} (hi : i < Ls.length) (hj : j < Ls.length) {u : Nat}
    (hui : u ∈ Ls[i]) (huj : u ∈ Ls[j]) : i = j := by
  rcases List.nodup_flatten.mp h with ⟨_, hpair⟩
  rw [List.pairwise_iff_getElem] at hpair
  by_contra hne
  rcases Nat.lt_or_ge i j with hij | hij
  · exact (hpair i j hi hj hij) hui huj
  · have hji : j < i := by omega
    exact (hpair j i hj hi hji) huj hui

lemma countP_contains_one : ∀ {Ls : List (List Nat)}, Ls.flatten.Nodup →
    ∀ {x : Nat}, x ∈ Ls.flatten →
      Ls.countP (fun l => l.contains x) = 1 := by
  intro Ls
  induction Ls with
  | nil => intro _ x hx; simp at hx
  | cons L Ls ih =>
    intro h x hx
    rw [List.flatten_cons] at h hx
    by_cases hxL : x ∈ L
    · have hxFl : x ∉ Ls.flatten := by
        intro hmem
        exact (List.disjoint_of_nodup_append h) hxL hmem
      have hL : (L.contains x) = true := by simpa using hxL
      have hzero : Ls.countP (fun l => l.contains x) = 0 := by
        rw [List.countP_eq_zero]
        intro l hl hcon
        have hxl : x ∈ l := by simpa using hcon
        exact hxFl (List.mem_flatten.mpr ⟨l, hl, hxl⟩)
      rw [List.countP_cons, hzero, hL]
      simp
    · have hxFl : x ∈ Ls.flatten := by
        rcases List.mem_append.mp hx with h1 | h1
        · exact absurd h1 hxL
        · exact h1
      have hnd : Ls.flatten.Nodup := (List.nodup_append.mp h).2.1
      have hL : (L.contains x) = false := by simpa using hxL
      rw [List.countP_cons, ih hnd hxFl, hL]
      simp

lemma countP_contains_zero {Ls : List (List Nat)} {x : Nat}
    (hx : x ∉ Ls.flatten) :
    Ls.countP (fun l => l.contains x) = 0 := by
  rw [List.countP_eq_zero]
  intro l hl hcon
  have hxl : x ∈ l := by simpa using hcon
  exact hx (List.mem_flatten.mpr ⟨l, hl, hxl⟩)

lemma exec_lookup_mem {tasks : List Task} (deps : List TaskDependency)
    (hnodup : (tasks.map Task.id).Nodup) {id : Nat}
    (hid : id ∈ tasks.map Task.id) :
    ∃ t ∈ tasks, t.id = id ∧
      executable_map_get (tasks.map (mkExecutableTask tasks deps)) id
        = some (mkExecutableTask tasks deps t) := by
  obtain ⟨t, ht, rfl⟩ := List.mem_map.mp hid
  refine ⟨t, ht, rfl, ?_⟩
  rw [exec_lookup, task_map_get_eq hnodup ht]
  rfl

lemma level_tasks_map {tasks : List Task} (deps : List TaskDependency)
    (hnodup : (tasks.map Task.id).Nodup) :
    ∀ (ids : List Nat), (∀ x ∈ ids, x ∈ tasks.map Task.id) →
      ((ids.filterMap
          (executable_map_get (tasks.map (mkExecutableTask tasks deps)))).map
        (fun et => et.task_id)) = ids := by
  intro ids
  induction ids with
  | nil => intro _; simp
  | cons c ids ih =>
    intro hsub
    obtain ⟨t, _ht, htid, hlook⟩ :=
      exec_lookup_mem deps hnodup (hsub c (List.mem_cons_self c ids))
    simp only [List.filterMap_cons, hlook]
    rw [List.map_cons, ih (fun x hx => hsub x (List.mem_cons_of_mem c hx))]
    congr 1

lemma level_tasks_length {tasks : List Task} (deps : List TaskDependency)
    (hnodup : (tasks.map Task.id).Nodup) (ids : List Nat)
    (hsub : ∀ x ∈ ids, x ∈ tasks.map Task.id) :
    (ids.filterMap
      (executable_map_get (tasks.map (mkExecutableTask tasks deps)))).length
      = ids.length := by
  have := level_tasks_map deps hnodup ids hsub
  calc (ids.filterMap
      (executable_map_get (tasks.map (mkExecutableTask tasks deps)))).length
      = ((ids.filterMap
          (executable_map_get (tasks.map (mkExecutableTask tasks deps)))).map
            (fun et => et.task_id)).length := (List.length_map _ _).symm
    _ = ids.length := by rw [this]

lemma plan_levels_eq (tasks : List Task) (deps : List TaskDependency)
    (hnodup : (tasks.map Task.id).Nodup) :
    (build_execution_plan tasks deps).levels
      = (topological_sort_levels tasks deps).enum.map (fun p =>
          { level := p.1
            tasks := p.2.filterMap
              (executable_map_get (tasks.map (mkExecutableTask tasks deps)))
            : ExecutionLevel }) := by
  have hch := topological_chainy tasks deps hnodup
  show List.filter _ _ = _
  apply List.filter_eq_self.mpr
  intro lv hlv
  obtain ⟨p, hpmem, rfl⟩ := List.mem_map.mp hlv
  obtain ⟨k, ids⟩ := p
  obtain ⟨hk, hids⟩ := List.mem_enum hpmem
  have hsub : ∀ x ∈ (topological_sort_levels tasks deps)[k],
      x ∈ tasks.map Task.id :=
    chainy_levels_sub hch _ (List.getElem_mem hk)
  have hne := ((chainy_get hch k hk).2.2)
  have hlen := level_tasks_length deps hnodup _ hsub
  dsimp only
  rw [hids]
  have hlenpos : 0 < ((topological_sort_levels tasks deps)[k].filterMap
      (executable_map_get (tasks.map (mkExecutableTask tasks deps)))).length := by
    rw [hlen]
    cases hX : (topological_sort_levels tasks deps)[k] with
    | nil => exact absurd hX hne
    | cons a l => simp
  cases hL : ((topological_sort_levels tasks deps)[k].filterMap
      (executable_map_get (tasks.map (mkExecutableTask tasks deps)))) with
  | nil => rw [hL] at hlenpos; simp at hlenpos
  | cons a l => simp

lemma find?_enumFrom {α} (p : α → Bool) :
    ∀ (L : List α) (n j : Nat) (hj : j < L.length), p (L[j]) = true →
      (∀ i (hi : i < L.length), i < j → p L[i] = false) →
      (List.enumFrom n L).find? (fun q => p q.2) = some (n + j, L[j]) := by
  intro L
  induction L with
  | nil => intro n j hj; simp at hj
  | cons a L ih =>
    intro n j hj hpj hbefore
    cases j with
    | zero =>
      rw [List.enumFrom_cons]
      rw [List.find?_cons_of_pos _ (by simpa using hpj)]
      simp
    | succ j =>
      have hpa : p a = false := by
        have := hbefore 0 (by omega) (by omega)
        simpa using this
      rw [List.enumFrom_cons, List.find?_cons_of_neg _ (by simp [hpa])]
      have hj' : j < L.length := by simpa using hj
      have hres := ih (n + 1) j hj' (by simpa using hpj)
        (fun i hi hij => by
          have := hbefore (i + 1) (by omega) (by omega)
          simpa using this)
      rw [hres]
      simp only [List.getElem_cons_succ]
      congr 2
      omega

lemma planLevelOf_eq (tasks : List Task) (deps : List TaskDependency)
    (hnodup : (tasks.map Task.id).Nodup) {j d : Nat}
    (hj : j < (topological_sort_levels tasks deps).length)
    (hd : d ∈ (topological_sort_levels tasks deps)[j]) :
    planLevelOf (build_execution_plan tasks deps) d = j := by
  have hch := topological_chainy tasks deps hnodup
  have hndfl : (topological_sort_levels tasks deps).flatten.Nodup := by
    have := chainy_flatten_nodup hch List.nodup_nil
    simpa using this
  unfold planLevelOf
  rw [plan_levels_eq tasks deps hnodup, List.find?_map]
  have hfind : (topological_sort_levels tasks deps).enum.find?
      ((fun lv : ExecutionLevel => lv.tasks.any (fun et => et.task_id == d)) ∘
        (fun p : Nat × List Nat =>
          ({ level := p.1
             tasks := p.2.filterMap
               (executable_map_get (tasks.map (mkExecutableTask tasks deps))) }
            : ExecutionLevel))) =
      some (0 + j, (topological_sort_levels tasks deps)[j]) := by
    apply find?_enumFrom
      (fun ids : List Nat => ((ids.filterMap
        (executable_map_get (tasks.map (mkExecutableTask tasks deps)))).any
          (fun et => et.task_id == d)))
    · rw [List.any_eq_true]
      have hsub : ∀ x ∈ (topological_sort_levels tasks deps)[j],
          x ∈ tasks.map Task.id :=
        chainy_levels_sub hch _ (List.getElem_mem hj)
      have hmapped := level_tasks_map deps hnodup _ hsub
      have hdm : d ∈ ((topological_sort_levels tasks deps)[j].filterMap
          (executable_map_get (tasks.map (mkExecutableTask tasks deps)))).map
            (fun et => et.task_id) := by
        rw [hmapped]; exact hd
      obtain ⟨et, hetmem, hetid⟩ := List.mem_map.mp hdm
      exact ⟨et, hetmem, by simp [hetid]⟩
    · intro i hi hij
      rw [Bool.eq_false_iff]
      intro hany
      rw [List.any_eq_true] at hany
      obtain ⟨et, hetmem, heq⟩ := hany
      have hetid : et.task_id = d := by simpa using heq
      have hsub : ∀ x ∈ (topological_sort_levels tasks deps)[i],
          x ∈ tasks.map Task.id :=
        chainy_levels_sub hch _ (List.getElem_mem hi)
      have hin : et.task_id ∈ ((topological_sort_levels tasks deps)[i].filterMap
          (executable_map_get (tasks.map (mkExecutableTask tasks deps)))).map
            (fun et => et.task_id) := List.mem_map_of_mem _ hetmem
      rw [level_tasks_map deps hnodup _ hsub, hetid] at hin
      have := flatten_unique_level hndfl hi hj hin hd
      omega
  rw [hfind]
  simp

lemma foldl_max_le (l : List Nat) : ∀ (a c : Nat), a ≤ c → (∀ x ∈ l, x ≤ c) →
    l.foldl Nat.max a ≤ c := by
  induction l with
  | nil => intro a c h _; simpa using h
  | cons b l ih =>
    intro a c ha hb
    rw [List.foldl_cons]
    refine ih _ _ ?_ (fun x hx => hb x (List.mem_cons_of_mem _ hx))
    exact Nat.max_le.mpr ⟨ha, hb b (List.mem_cons_self b l)⟩

lemma le_foldl_max (l : List Nat) : ∀ (a : Nat), a ≤ l.foldl Nat.max a := by
  induction l with
  | nil => intro a; simp
  | cons b l ih =>
    intro a
    rw [List.foldl_cons]
    calc a ≤ Nat.max a b := Nat.le_max_left _ _
      _ ≤ _ := ih _

lemma mem_le_foldl_max (l : List Nat) : ∀ (a : Nat), ∀ x ∈ l, x ≤ l.foldl Nat.max a := by
  induction l with
  | nil => intro a x hx; cases hx
  | cons b l ih =>
    intro a x hx
    rw [List.foldl_cons]
    rcases List.mem_cons.mp hx with rfl | hx'
    · calc x ≤ Nat.max a x := Nat.le_max_right _ _
        _ ≤ _ := le_foldl_max l _
    · exact ih _ x hx'

lemma foldl_max_eq {l : List Nat} {m : Nat} (h1 : ∀ x ∈ l, x ≤ m) (h2 : m ∈ l) :
    l.foldl Nat.max 0 = m :=
  Nat.le_antisymm (foldl_max_le l 0 m (Nat.zero_le m) h1) (mem_le_foldl_max l 0 m h2)

lemma mem_flatten_take {Ls : List (List Nat)} {k d : Nat}
    (hd : d ∈ (Ls.take k).flatten) :
    ∃ i, ∃ (hi : i < Ls.length), i < k ∧ d ∈ Ls[i] := by
  obtain ⟨l, hl, hdl⟩ := List.mem_flatten.mp hd
  obtain ⟨i, hi, hleq⟩ := List.getElem_of_mem hl
  have hik : i < k := by
    have := hi
    rw [List.length_take] at this
    omega
  have hiL : i < Ls.length := by
    have := hi
    rw [List.length_take] at this
    omega
  refine ⟨i, hiL, hik, ?_⟩
  rw [List.getElem_take] at hleq
  rw [hleq]
  exact hdl

lemma flatten_take_succ {Ls : List (List Nat)} {k : Nat} (hk : k < Ls.length) :
    (Ls.take (k + 1)).flatten = (Ls.take k).flatten ++ Ls[k] := by
  rw [List.take_succ, List.getElem?_eq_getElem hk]
  rw [show (some Ls[k]).toList = [Ls[k]] from rfl, List.flatten_append]
  simp

/-! ## Claim C1: level assignment -/

/-- C1: for every task list with distinct ids and every dependency list
whose edges connect tasks in the list and form an acyclic graph, every task
in the plan produced by `build_execution_plan` is placed at level 0 when it
has no dependencies, and otherwise at level 1 plus the maximum of the levels
assigned to its dependencies. -/
theorem c1_level_assignment (tasks : List Task)
    (dependencies : List TaskDependency)
    (hnodup : (tasks.map Task.id).Nodup)
    (_hedge : EdgesWithin tasks dependencies)
    (_hacyc : AcyclicDeps dependencies) :
    ∀ lv ∈ (build_execution_plan tasks dependencies).levels,
      ∀ et ∈ lv.tasks,
        (deps_for_task dependencies et.task_id = [] → lv.level = 0) ∧
        (deps_for_task dependencies et.task_id ≠ [] →
          lv.level = 1 +
            ((deps_for_task dependencies et.task_id).map
              (planLevelOf (build_execution_plan tasks dependencies))).foldl
                Nat.max 0) := by
  have hch := topological_chainy tasks dependencies hnodup
  have hndfl : (topological_sort_levels tasks dependencies).flatten.Nodup := by
    have := chainy_flatten_nodup hch List.nodup_nil
    simpa using this
  intro lv hlv et het
  rw [plan_levels_eq tasks dependencies hnodup] at hlv
  obtain ⟨⟨k, ids⟩, hpmem, rfl⟩ := List.mem_map.mp hlv
  obtain ⟨hk, hids⟩ := List.mem_enum hpmem
  have hsub : ∀ x ∈ ids, x ∈ tasks.map Task.id := by
    rw [hids]
    exact chainy_levels_sub hch _ (List.getElem_mem hk)
  have htid : et.task_id ∈ ids := by
    have hmm : et.task_id ∈ (ids.filterMap
        (executable_map_get (tasks.map (mkExecutableTask tasks dependencies)))).map
          (fun e => e.task_id) := List.mem_map_of_mem _ het
    rw [level_tasks_map dependencies hnodup ids hsub] at hmm
    exact hmm
  rw [hids] at htid
  obtain ⟨hcharK, _, _⟩ := chainy_get hch k hk
  have hetK := (hcharK et.task_id).mp htid
  simp only [List.nil_append] at hetK
  constructor
  · intro hdnil
    have hlen1 : 0 < (topological_sort_levels tasks dependencies).length := by
      omega
    obtain ⟨hchar0, _, _⟩ := chainy_get hch 0 hlen1
    simp only [List.nil_append] at hchar0
    have h0 : et.task_id ∈ (topological_sort_levels tasks dependencies)[0] :=
      (hchar0 et.task_id).mpr ⟨hetK.1, by simp, by
        rw [hdnil]; intro d hd; cases hd⟩
    have := flatten_unique_level hndfl hlen1 hk h0 htid
    dsimp only
    omega
  · intro hdne
    have hk0 : k ≠ 0 := by
      intro h0
      subst h0
      obtain ⟨a, ha⟩ : ∃ a, a ∈ deps_for_task dependencies et.task_id := by
        cases hdf : deps_for_task dependencies et.task_id with
        | nil => exact absurd hdf hdne
        | cons a l => exact ⟨a, List.mem_cons_self a l⟩
      have := hetK.2.2 a ha
      simp at this
    obtain ⟨k', rfl⟩ : ∃ k', k = k' + 1 := ⟨k - 1, by omega⟩
    have hsplit := flatten_take_succ
      (show k' < (topological_sort_levels tasks dependencies).length by omega)
    have hbound : ∀ x ∈ (deps_for_task dependencies et.task_id).map
        (planLevelOf (build_execution_plan tasks dependencies)), x ≤ k' := by
      intro x hx
      obtain ⟨dd, hdd, rfl⟩ := List.mem_map.mp hx
      have hddmem := hetK.2.2 dd hdd
      obtain ⟨i, hiL, hik, hdi⟩ := mem_flatten_take hddmem
      rw [planLevelOf_eq tasks dependencies hnodup hiL hdi]
      omega
    have hnm : et.task_id ∉
        ((topological_sort_levels tasks dependencies).take k').flatten := by
      intro hmem
      exact hetK.2.1 (by rw [hsplit]; exact List.mem_append_left _ hmem)
    have hnotall : ¬ ∀ dd ∈ deps_for_task dependencies et.task_id,
        dd ∈ ((topological_sort_levels tasks dependencies).take k').flatten := by
      intro hall
      obtain ⟨hcharK', _, _⟩ := chainy_get hch k' (by omega)
      simp only [List.nil_append] at hcharK'
      have hK' : et.task_id ∈ (topological_sort_levels tasks dependencies)[k'] :=
        (hcharK' et.task_id).mpr ⟨hetK.1, hnm, hall⟩
      have := flatten_unique_level hndfl
        (show k' < (topological_sort_levels tasks dependencies).length by omega)
        hk hK' htid
      omega
    push_neg at hnotall
    obtain ⟨dd, hdd, hddnm⟩ := hnotall
    have hddk' : dd ∈ (topological_sort_levels tasks dependencies)[k'] := by
      have := hetK.2.2 dd hdd
      rw [hsplit] at this
      rcases List.mem_append.mp this with h | h
      · exact absurd h hddnm
      · exact h
    have hmax : ((deps_for_task dependencies et.task_id).map
        (planLevelOf (build_execution_plan tasks dependencies))).foldl
          Nat.max 0 = k' := by
      apply foldl_max_eq hbound
      have hpl : planLevelOf (build_execution_plan tasks dependencies) dd = k' :=
        planLevelOf_eq tasks dependencies hnodup (by omega) hddk'
      rw [← hpl]
      exact List.mem_map_of_mem _ hdd
    dsimp only
    rw [hmax]
    omega

/-- Witness for C1: the level theorem applied to the chain fixture; task 2
sits at level 2, one more than the level of its single dependency. -/
theorem c1_witness :
    ((build_execution_plan chainTasks chainDeps).levels.getD 2
        { level := 0, tasks := [] }).level
      = 1 + ((deps_for_task chainDeps
          (((build_execution_plan chainTasks chainDeps).levels.getD 2
              { level := 0, tasks := [] }).tasks.getD 0
            { task_id := 0, status := TaskStatus.Todo
              readiness := TaskReadiness.Ready, dependencies := []
              dependents := [] }).task_id).map
          (planLevelOf (build_execution_plan chainTasks chainDeps))).foldl
            Nat.max 0 :=
  (c1_level_assignment chainTasks chainDeps (by decide)
    (by unfold EdgesWithin; decide) ⟨fun n => n, by decide⟩
    ((build_execution_plan chainTasks chainDeps).levels.getD 2
      { level := 0, tasks := [] }) (by decide)
    (((build_execution_plan chainTasks chainDeps).levels.getD 2
        { level := 0, tasks := [] }).tasks.getD 0
      { task_id := 0, status := TaskStatus.Todo
        readiness := TaskReadiness.Ready, dependencies := []
        dependents := [] }) (by decide)).2 (by decide)

lemma deps_for_sub_ids {tasks : List Task} {dependencies : List TaskDependency}
    (hedge : EdgesWithin tasks dependencies) :
    ∀ (u : Nat), ∀ d ∈ deps_for_task dependencies u, d ∈ tasks.map Task.id := by
  intro u d hd
  unfold deps_for_task at hd
  simp only [List.mem_map, List.mem_filter] at hd
  obtain ⟨row, ⟨hrow, _⟩, rfl⟩ := hd
  exact (hedge row hrow).2

lemma rank_deps_for {dependencies : List TaskDependency} {rank : Nat → Nat}
    (hrank : ∀ d ∈ dependencies, rank d.depends_on_task_id < rank d.task_id) :
    ∀ (u : Nat), ∀ d ∈ deps_for_task dependencies u, rank d < rank u := by
  intro u d hd
  unfold deps_for_task at hd
  simp only [List.mem_map, List.mem_filter] at hd
  obtain ⟨row, ⟨hrow, hrq⟩, rfl⟩ := hd
  have htid : row.task_id = u := by simpa using hrq
  have := hrank row hrow
  rw [htid] at this
  exact this

lemma flatten_perm_ids (tasks : List Task) (dependencies : List TaskDependency)
    (hnodup : (tasks.map Task.id).Nodup)
    (hedge : EdgesWithin tasks dependencies) (hacyc : AcyclicDeps dependencies) :
    (topological_sort_levels tasks dependencies).flatten.Perm
      (tasks.map Task.id) := by
  have hch := topological_chainy tasks dependencies hnodup
  have hndfl : (topological_sort_levels tasks dependencies).flatten.Nodup := by
    have := chainy_flatten_nodup hch List.nodup_nil
    simpa using this
  obtain ⟨rank, hrank⟩ := hacyc
  apply (List.perm_ext_iff_of_nodup hndfl hnodup).mpr
  intro a
  constructor
  · intro ha
    obtain ⟨l, hl, hal⟩ := List.mem_flatten.mp ha
    exact chainy_levels_sub hch l hl a hal
  · intro ha
    have := chainy_complete (deps_for_sub_ids hedge) rank
      (rank_deps_for hrank) hch a ha
    simpa using this

/-! ## Claim C3: every task appears in exactly one level -/

/-- C3: for every task list with distinct ids and every dependency list
whose edges connect tasks in the list and form an acyclic graph, the plan
produced by `build_execution_plan` contains every task id in exactly one
level, and the level sizes sum to the number of input tasks. -/
theorem c3_partition (tasks : List Task) (dependencies : List TaskDependency)
    (hnodup : (tasks.map Task.id).Nodup)
    (hedge : EdgesWithin tasks dependencies)
    (hacyc : AcyclicDeps dependencies) :
    (((build_execution_plan tasks dependencies).levels.map
        (fun lv => lv.tasks.length)).sum = tasks.length) ∧
    ∀ t ∈ tasks,
      ((build_execution_plan tasks dependencies).levels.countP
        (fun lv => lv.tasks.any (fun et => et.task_id == t.id))) = 1 := by
  have hch := topological_chainy tasks dependencies hnodup
  have hndfl : (topological_sort_levels tasks dependencies).flatten.Nodup := by
    have := chainy_flatten_nodup hch List.nodup_nil
    simpa using this
  have hperm := flatten_perm_ids tasks dependencies hnodup hedge hacyc
  constructor
  · rw [plan_levels_eq tasks dependencies hnodup, List.map_map]
    have hmapeq : ((topological_sort_levels tasks dependencies).enum.map
          ((fun lv : ExecutionLevel => lv.tasks.length) ∘ (fun p : Nat × List Nat =>
            ({ level := p.1
               tasks := p.2.filterMap (executable_map_get
                 (tasks.map (mkExecutableTask tasks dependencies))) }
              : ExecutionLevel))))
        = (topological_sort_levels tasks dependencies).enum.map
            (fun p => p.2.length) := by
      apply List.map_congr_left
      intro p hp
      obtain ⟨k, ids⟩ := p
      obtain ⟨hk, hids⟩ := List.mem_enum hp
      have hsub : ∀ x ∈ ids, x ∈ tasks.map Task.id := by
        rw [hids]
        exact chainy_levels_sub hch _ (List.getElem_mem hk)
      exact level_tasks_length dependencies hnodup ids hsub
    rw [hmapeq]
    have hsnd : (topological_sort_levels tasks dependencies).enum.map
        (fun p => p.2.length)
        = (topological_sort_levels tasks dependencies).map
            (fun l => l.length) := by
      rw [show (fun p : Nat × List Nat => p.2.length)
          = ((fun l : List Nat => l.length) ∘ Prod.snd) from rfl,
        ← List.map_map,
      show (topological_sort_levels tasks dependencies).enum
        = List.enumFrom 0 (topological_sort_levels tasks dependencies) from rfl,
      List.enumFrom_map_snd]
    rw [hsnd, ← List.length_flatten, hperm.length_eq, List.length_map]
  · intro t ht
    rw [plan_levels_eq tasks dependencies hnodup, List.countP_map]
    have hcnt : List.countP
        ((fun lv : ExecutionLevel => lv.tasks.any (fun et => et.task_id == t.id))
          ∘ (fun p : Nat × List Nat =>
            ({ level := p.1
               tasks := p.2.filterMap (executable_map_get
                 (tasks.map (mkExecutableTask tasks dependencies))) }
              : ExecutionLevel)))
        (topological_sort_levels tasks dependencies).enum
        = List.countP (fun p : Nat × List Nat => p.2.contains t.id)
            (topological_sort_levels tasks dependencies).enum := by
      apply List.countP_congr
      intro p hp
      obtain ⟨k, ids⟩ := p
      obtain ⟨hk, hids⟩ := List.mem_enum hp
      have hsub : ∀ x ∈ ids, x ∈ tasks.map Task.id := by
        rw [hids]
        exact chainy_levels_sub hch _ (List.getElem_mem hk)
      show ((ids.filterMap (executable_map_get
          (tasks.map (mkExecutableTask tasks dependencies)))).any
            (fun et => et.task_id == t.id)) = true ↔ (ids.contains t.id) = true
      rw [List.any_eq_true]
      constructor
      · rintro ⟨et, hetmem, heq⟩
        have hetid : et.task_id = t.id := by simpa using heq
        have hin : et.task_id ∈ (ids.filterMap (executable_map_get
            (tasks.map (mkExecutableTask tasks dependencies)))).map
              (fun e => e.task_id) := List.mem_map_of_mem _ hetmem
        rw [level_tasks_map dependencies hnodup ids hsub, hetid] at hin
        simpa using hin
      · intro hcont
        have hin : t.id ∈ ids := by simpa using hcont
        have : t.id ∈ (ids.filterMap (executable_map_get
            (tasks.map (mkExecutableTask tasks dependencies)))).map
              (fun e => e.task_id) := by
          rw [level_tasks_map dependencies hnodup ids hsub]
          exact hin
        obtain ⟨et, hetmem, hetid⟩ := List.mem_map.mp this
        exact ⟨et, hetmem, by simp [hetid]⟩
    rw [hcnt]
    have hcnt2 : List.countP (fun p : Nat × List Nat => p.2.contains t.id)
        (topological_sort_levels tasks dependencies).enum
        = List.countP (fun ids : List Nat => ids.contains t.id)
            (topological_sort_levels tasks dependencies) := by
      rw [show (fun p : Nat × List Nat => p.2.contains t.id)
          = ((fun ids : List Nat => ids.contains t.id) ∘ Prod.snd) from rfl,
        ← List.countP_map,
      show (topological_sort_levels tasks dependencies).enum
        = List.enumFrom 0 (topological_sort_levels tasks dependencies) from rfl,
      List.enumFrom_map_snd]
    rw [hcnt2]
    apply countP_contains_one hndfl
    exact (hperm.mem_iff).mpr (List.mem_map_of_mem Task.id ht)

/-- Witness for C3: the partition theorem applied to the chain fixture. -/
theorem c3_witness :
    ((build_execution_plan chainTasks chainDeps).levels.map
      (fun lv => lv.tasks.length)).sum = chainTasks.length :=
  (c3_partition chainTasks chainDeps (by decide)
    (by unfold EdgesWithin; decide) ⟨fun n => n, by decide⟩).1

/-- C5 (amended): `build_execution_plan` is total — it always returns a plan
and no `CorruptGraph` error exists.  Each level contains only distinct
present task ids, so the level sizes sum to at most the number of input
tasks; on cyclic input the tasks of the cycle are omitted and the
inequality is strict (witnessed concretely by `c5_counterexample`). -/
theorem c5_levels_le_tasks (tasks : List Task)
    (dependencies : List TaskDependency)
    (hnodup : (tasks.map Task.id).Nodup)
    (_hedge : EdgesWithin tasks dependencies) :
    ((build_execution_plan tasks dependencies).levels.map
      (fun lv => lv.tasks.length)).sum ≤ tasks.length := by
  have hch := topological_chainy tasks dependencies hnodup
  have hndfl : (topological_sort_levels tasks dependencies).flatten.Nodup := by
    have := chainy_flatten_nodup hch List.nodup_nil
    simpa using this
  rw [plan_levels_eq tasks dependencies hnodup, List.map_map]
  have hmapeq : ((topological_sort_levels tasks dependencies).enum.map
        ((fun lv : ExecutionLevel => lv.tasks.length) ∘ (fun p : Nat × List Nat =>
          ({ level := p.1
             tasks := p.2.filterMap (executable_map_get
               (tasks.map (mkExecutableTask tasks dependencies))) }
            : ExecutionLevel))))
      = (topological_sort_levels tasks dependencies).enum.map
          (fun p => p.2.length) := by
    apply List.map_congr_left
    intro p hp
    obtain ⟨k, ids⟩ := p
    obtain ⟨hk, hids⟩ := List.mem_enum hp
    have hsub : ∀ x ∈ ids, x ∈ tasks.map Task.id := by
      rw [hids]
      exact chainy_levels_sub hch _ (List.getElem_mem hk)
    exact level_tasks_length dependencies hnodup ids hsub
  rw [hmapeq]
  have hsnd : (topological_sort_levels tasks dependencies).enum.map
      (fun p => p.2.length)
      = (topological_sort_levels tasks dependencies).map (fun l => l.length) := by
    rw [show (fun p : Nat × List Nat => p.2.length)
        = ((fun l : List Nat => l.length) ∘ Prod.snd) from rfl,
      ← List.map_map,
      show (topological_sort_levels tasks dependencies).enum
        = List.enumFrom 0 (topological_sort_levels tasks dependencies) from rfl,
      List.enumFrom_map_snd]
  rw [hsnd, ← List.length_flatten]
  have hsub : ∀ x ∈ (topological_sort_levels tasks dependencies).flatten,
      x ∈ tasks.map Task.id := by
    intro x hx
    obtain ⟨l, hl, hxl⟩ := List.mem_flatten.mp hx
    exact chainy_levels_sub hch l hl x hxl
  have := nodup_length_le hndfl hsub
  rw [List.length_map] at this
  exact this

/-- Witness for C5: the amended theorem applied to the two-task cycle,
where the sum of level sizes is 0 ≤ 2. -/
theorem c5_witness :
    ((build_execution_plan cyclicTasks cyclicDeps).levels.map
      (fun lv => lv.tasks.length)).sum ≤ cyclicTasks.length :=
  c5_levels_le_tasks cyclicTasks cyclicDeps (by decide)
    (by unfold EdgesWithin; decide)

lemma foldl_const {α β : Type} (l : List α) (init : β) :
    l.foldl (fun st _ => st) init = init := by
  induction l generalizing init with
  | nil => rfl
  | cons a l ih => exact ih init

lemma kahnLoop_succ (tids : List Nat) (dep : Nat → List Nat) (fuel : Nat)
    (deg : Nat → Nat) (cur : List Nat) :
    kahnLoop tids dep (fuel + 1) deg cur =
      if cur.isEmpty then []
      else cur :: kahnLoop tids dep fuel
        (processLevel tids dep deg cur).1 (processLevel tids dep deg cur).2 :=
  rfl

lemma topological_no_deps (tasks : List Task)
    (hnodup : (tasks.map Task.id).Nodup) (hne : tasks ≠ []) :
    topological_sort_levels tasks [] = [tasks.map Task.id] := by
  unfold topological_sort_levels
  rw [eraseDups_of_nodup hnodup]
  have hseed : (tasks.map Task.id).filter
      (fun t => ((deps_for_task [] t).length == 0)) = tasks.map Task.id :=
    List.filter_eq_self.mpr (fun a _ => rfl)
  show kahnLoop (tasks.map Task.id) (fun t => dependents_of_task [] t)
      ((tasks.map Task.id).length + ([] : List TaskDependency).length + 1)
      (fun t => (deps_for_task [] t).length)
      ((tasks.map Task.id).filter (fun t => ((deps_for_task [] t).length == 0)))
    = [tasks.map Task.id]
  rw [hseed]
  obtain ⟨t, ts, rfl⟩ : ∃ t ts, tasks = t :: ts := by
    cases tasks with
    | nil => exact absurd rfl hne
    | cons t ts => exact ⟨t, ts, rfl⟩
  rw [kahnLoop_succ]
  rw [if_neg (by simp)]
  have hpl : processLevel ((t :: ts).map Task.id)
      (fun t => dependents_of_task [] t)
      (fun t => (deps_for_task [] t).length) ((t :: ts).map Task.id)
      = ((fun t => (deps_for_task [] t).length), []) :=
    foldl_const ((t :: ts).map Task.id) (_, [])
  rw [hpl]
  have hfuel : ((t :: ts).map Task.id).length + ([] : List TaskDependency).length
      = ts.length + 1 := by
    simp
  rw [hfuel, kahnLoop_succ]
  simp

/-- C4 (amended): `build_execution_plan` applies no sort within a level;
tasks appear in the traversal order of the underlying hash maps, which the
embedding instantiates as input order.  In particular, for a dependency-free
input with distinct ids the plan consists of a single level listing the
tasks in input order — not in `(created_at, id)` order. -/
theorem c4_no_sort_input_order (tasks : List Task)
    (hnodup : (tasks.map Task.id).Nodup) (hne : tasks ≠ []) :
    (build_execution_plan tasks []).levels.map
        (fun lv => lv.tasks.map (fun et => et.task_id))
      = [tasks.map Task.id] := by
  rw [plan_levels_eq tasks [] hnodup, topological_no_deps tasks hnodup hne]
  rw [show ([tasks.map Task.id] : List (List Nat)).enum
    = [(0, tasks.map Task.id)] from rfl]
  rw [List.map_cons, List.map_cons, List.map_nil, List.map_nil]
  congr 1
  exact level_tasks_map [] hnodup (tasks.map Task.id) (fun x hx => hx)

/-- Witness for C4: the amended theorem applied to the two-task fixture:
the single level lists the tasks in input order `[0, 1]` although their
`created_at` values are `10 > 5`. -/
theorem c4_witness :
    (build_execution_plan c4Tasks []).levels.map
        (fun lv => lv.tasks.map (fun et => et.task_id))
      = [c4Tasks.map Task.id] :=
  c4_no_sort_input_order c4Tasks (by decide) (by decide)

/-! ## GitHub sync: the local status field is never rewritten -/

lemma upsert_tasks (st : SyncState) (tid : Nat) (n v : String)
    (src : Option PropertySource) :
    (db_task_property_upsert st tid n v src).tasks = st.tasks := by
  unfold db_task_property_upsert
  split <;> rfl

lemma sync_props_tasks (st : SyncState) (tid : Nat) (issue : GitHubIssue)
    (item : GitHubProjectItem) :
    (sync_issue_properties st tid issue item).tasks = st.tasks := by
  unfold sync_issue_properties
  have hfold : ∀ (fvs : List ProjectFieldValue) (s : SyncState),
      (fvs.foldl (fun st fv => db_task_property_upsert st tid
        ("github_" ++ (fv.field_name.toLower.replace " " "_")) fv.value
        (some PropertySource.Github)) s).tasks = s.tasks := by
    intro fvs
    induction fvs with
    | nil => intro s; rfl
    | cons fv fvs ih => intro s; rw [List.foldl_cons, ih, upsert_tasks]
  rw [hfold]
  by_cases h1 : issue.labels.isEmpty <;> cases hm : issue.milestone <;>
    by_cases h2 : issue.assignees.isEmpty <;>
      simp [h1, hm, h2, upsert_tasks]

lemma mapping_timestamps_tasks (st : SyncState) (id : Nat)
    (g v : Option Nat) :
    (db_mapping_update_sync_timestamps st id g v).tasks = st.tasks := rfl

lemma mapping_create_tasks (st : SyncState) (a b c : Nat) (d e : String)
    (f : Option SyncDirection) :
    (db_mapping_create st a b c d e f).tasks = st.tasks := rfl

lemma link_update_tasks (st : SyncState) (id : Nat) :
    (db_link_update_last_sync_at st id).tasks = st.tasks := rfl

/-- Status preservation between two task stores: the first matching row for
any id keeps its status. -/
def StatusPres (l l' : List Task) : Prop :=
  ∀ (id : Nat) (t : Task), l.find? (fun x => x.id == id) = some t →
    ∃ t', l'.find? (fun x => x.id == id) = some t' ∧ t'.status = t.status

lemma statusPres_refl (l : List Task) : StatusPres l l :=
  fun _ t h => ⟨t, h, rfl⟩

lemma statusPres_trans {l₁ l₂ l₃ : List Task} (h1 : StatusPres l₁ l₂)
    (h2 : StatusPres l₂ l₃) : StatusPres l₁ l₃ := by
  intro id t h
  obtain ⟨t', h', hs'⟩ := h1 id t h
  obtain ⟨t'', h'', hs''⟩ := h2 id t' h'
  exact ⟨t'', h'', by rw [hs'', hs']⟩

lemma statusPres_append (l : List Task) (l₂ : List Task) :
    StatusPres l (l ++ l₂) := by
  intro id t h
  refine ⟨t, ?_, rfl⟩
  rw [List.find?_append, h]
  rfl

lemma update_task_statusPres (st : SyncState) (task_id : Nat)
    (existing : Task)
    (hfind : st.tasks.find? (fun x => x.id == task_id) = some existing)
    (title : String) (description : Option String)
    (project_id : Nat) (parent : Option Nat) :
    StatusPres st.tasks
      (db_task_update st task_id project_id title description
        existing.status parent).tasks := by
  intro id t h
  unfold db_task_update
  dsimp only
  rw [List.find?_map]
  have hpg : ((fun x : Task => x.id == id) ∘ (fun t : Task =>
      if t.id == task_id then
        { t with project_id := project_id, title := title
                 description := description, status := existing.status
                 parent_workspace_id := parent, updated_at := st.now }
      else t)) = (fun x : Task => x.id == id) := by
    funext x
    by_cases hx : (x.id == task_id) = true <;> simp [Function.comp, hx]
  rw [hpg, h]
  by_cases ht : (t.id == task_id) = true
  · have htid : t.id = task_id := by simpa using ht
    have hid : t.id = id := by
      have := List.find?_some h
      simpa using this
    have hte : existing = t := by
      rw [← htid] at hfind
      rw [hid] at hfind
      rw [h] at hfind
      injection hfind with hv
      exact hv.symm
    refine ⟨_, rfl, ?_⟩
    simp only [ht, if_true]
    rw [hte]
  · refine ⟨t, ?_, ?_⟩
    · simp only [Option.map_some']
      congr 1
      simp [ht]
    · simp [ht]

lemma update_task_from_issue_statusPres (st : SyncState) (task_id : Nat)
    (issue : GitHubIssue) (item : GitHubProjectItem) (st' : SyncState)
    (h : update_task_from_issue st task_id issue item = Except.ok st') :
    StatusPres st.tasks st'.tasks := by
  unfold update_task_from_issue at h
  cases hfind : db_task_find_by_id st task_id with
  | none => rw [hfind] at h; simp at h
  | some existing =>
    rw [hfind] at h
    simp only [Except.ok.injEq] at h
    subst h
    rw [sync_props_tasks]
    exact update_task_statusPres st task_id existing hfind issue.title
      issue.body existing.project_id existing.parent_workspace_id

lemma create_task_statusPres (st : SyncState) (project_id : Nat)
    (issue : GitHubIssue) (item : GitHubProjectItem) :
    StatusPres st.tasks (create_task_from_issue st project_id issue item).1.tasks := by
  unfold create_task_from_issue
  dsimp only
  rw [sync_props_tasks]
  unfold db_task_create popFresh
  dsimp only
  exact statusPres_append st.tasks _

lemma sync_item_statusPres (st : SyncState) (link : GitHubProjectLink)
    (project_id : Nat) (item : GitHubProjectItem) :
    StatusPres st.tasks (sync_item_from_github st link project_id item).1.tasks := by
  unfold sync_item_from_github
  split
  · exact statusPres_refl _
  · next issue _hiss =>
    split
    · next mapping _hmap =>
      split
      · exact statusPres_refl _
      · split
        · exact statusPres_refl _
        · next st2 hupd =>
          rw [mapping_timestamps_tasks]
          exact update_task_from_issue_statusPres st mapping.task_id issue
            item st2 hupd
    · rw [mapping_create_tasks]
      exact create_task_statusPres st project_id issue item

lemma sync_items_statusPres (link : GitHubProjectLink) (project_id : Nat) :
    ∀ (items : List GitHubProjectItem) (st : SyncState) (r : SyncResult),
      StatusPres st.tasks (sync_items st link project_id items r).1.tasks := by
  intro items
  induction items with
  | nil => intro st r; exact statusPres_refl _
  | cons item rest ih =>
    intro st r
    unfold sync_items
    cases hstep : sync_item_from_github st link project_id item with
    | mk st2 res =>
      have hpres : StatusPres st.tasks st2.tasks := by
        have := sync_item_statusPres st link project_id item
        rw [hstep] at this
        exact this
      cases res with
      | ok created =>
        cases created <;> exact statusPres_trans hpres (ih st2 _)
      | error e => exact statusPres_trans hpres (ih st2 _)

/-- C8: for every task that already has a GitHub issue mapping (and, as
proved, for every task at all), running `sync_from_github` leaves the
task's local `status` field unchanged, for every remote item content.
(spec-modelled: the `Task` repository operations invoked by the sync
service are not part of the provided sources and are modelled from §4.7 of
the specification.) -/
theorem c8_sync_preserves_status (st : SyncState) (link : GitHubProjectLink)
    (project_id : Nat) (items : List GitHubProjectItem)
    (hnodup : (st.tasks.map Task.id).Nodup) (t : Task) (ht : t ∈ st.tasks)
    (_hmapped : ∃ m ∈ st.mappings, m.task_id = t.id) :
    ∃ t', (sync_from_github st link project_id items).1.tasks.find?
        (fun x => x.id == t.id) = some t' ∧ t'.status = t.status := by
  have hfind : st.tasks.find? (fun x => x.id == t.id) = some t :=
    find?_id_eq hnodup ht
  unfold sync_from_github
  cases hloop : sync_items st link project_id items SyncResult.empty with
  | mk st2 res =>
    dsimp only
    rw [link_update_tasks]
    have hpres := sync_items_statusPres link project_id items st SyncResult.empty
    rw [hloop] at hpres
    exact hpres t.id t hfind

/-- Witness for C8: the preservation theorem applied to the sample state
(task 5 is `InProgress` and mapped to issue #42) with a remote item whose
issue carries a new title and a closed state. -/
theorem c8_witness :
    ∃ t', (sync_from_github sampleSyncState sampleLink 0
        [sampleItem (some (sampleIssue 42 "new title" "CLOSED"))]).1.tasks.find?
          (fun x => x.id == 5) = some t' ∧
      t'.status = TaskStatus.InProgress :=
  c8_sync_preserves_status sampleSyncState sampleLink 0
    [sampleItem (some (sampleIssue 42 "new title" "CLOSED"))] (by decide)
    (sampleTask 5 0 TaskStatus.InProgress) (by decide)
    ⟨sampleMapping 5 SyncDirection.Bidirectional, by decide, by decide⟩

/-! ## Claim C10: skipped items are counted as updates -/

lemma sync_items_cons (st : SyncState) (link : GitHubProjectLink)
    (project_id : Nat) (item : GitHubProjectItem)
    (rest : List GitHubProjectItem) (r : SyncResult) :
    sync_items st link project_id (item :: rest) r =
      match sync_item_from_github st link project_id item with
      | (st2, Except.ok created) =>
        sync_items st2 link project_id rest
          (if created then
            { r with items_created := r.items_created + 1
                     items_synced := r.items_synced + 1 }
          else
            { r with items_updated := r.items_updated + 1
                     items_synced := r.items_synced + 1 })
      | (st2, Except.error e) =>
        sync_items st2 link project_id rest
          { r with errors :=
              r.errors ++ ["Failed to sync item " ++ item.id ++ ": " ++ e] } :=
  rfl

lemma sync_items_counts (link : GitHubProjectLink) (project_id : Nat) :
    ∀ (items : List GitHubProjectItem) (st : SyncState) (r : SyncResult),
      (sync_items st link project_id items r).2.items_skipped
        = r.items_skipped ∧
      ((sync_items st link project_id items r).2.items_created +
          (sync_items st link project_id items r).2.items_updated)
          + r.items_synced
        = (sync_items st link project_id items r).2.items_synced
          + (r.items_created + r.items_updated) := by
  intro items
  induction items with
  | nil =>
    intro st r
    refine ⟨rfl, ?_⟩
    show (r.items_created + r.items_updated) + r.items_synced
      = r.items_synced + (r.items_created + r.items_updated)
    omega
  | cons item rest ih =>
    intro st r
    rw [sync_items_cons]
    cases hstep : sync_item_from_github st link project_id item with
    | mk st2 res =>
      cases res with
      | ok created =>
        cases created with
        | true =>
          have := ih st2 { r with items_created := r.items_created + 1
                                  items_synced := r.items_synced + 1 }
          dsimp only at this ⊢
          rw [if_pos rfl]
          exact ⟨this.1, by omega⟩
        | false =>
          have := ih st2 { r with items_updated := r.items_updated + 1
                                  items_synced := r.items_synced + 1 }
          dsimp only at this ⊢
          rw [if_neg (by simp)]
          exact ⟨this.1, by omega⟩
      | error e =>
        have := ih st2 { r with errors :=
          r.errors ++ ["Failed to sync item " ++ item.id ++ ": " ++ e] }
        dsimp only at this ⊢
        exact ⟨this.1, by omega⟩

/-- C10: in every `SyncResult` returned by `sync_from_github`,
`items_skipped` is 0 and `items_synced = items_created + items_updated`;
moreover an item that the sync rules skip — a draft without an issue, or an
item whose existing mapping has direction `VibeToGithub` — is processed as
a successful update: the state is untouched and `items_updated` and
`items_synced` are incremented.
(spec-modelled: the `Task` repository operations invoked by the sync
service are not part of the provided sources and are modelled from §4.7 of
the specification.) -/
theorem c10_skipped_counted :
    (∀ (st : SyncState) (link : GitHubProjectLink) (project_id : Nat)
        (items : List GitHubProjectItem),
      (sync_from_github st link project_id items).2.items_skipped = 0 ∧
      (sync_from_github st link project_id items).2.items_created +
          (sync_from_github st link project_id items).2.items_updated
        = (sync_from_github st link project_id items).2.items_synced) ∧
    (∀ (st : SyncState) (link : GitHubProjectLink) (project_id : Nat)
        (item : GitHubProjectItem) (rest : List GitHubProjectItem)
        (r : SyncResult),
      skippedByRules st link item →
        sync_items st link project_id (item :: rest) r =
          sync_items st link project_id rest
            { r with items_updated := r.items_updated + 1
                     items_synced := r.items_synced + 1 }) := by
  constructor
  · intro st link project_id items
    unfold sync_from_github
    cases hloop : sync_items st link project_id items SyncResult.empty with
    | mk st2 res =>
      dsimp only
      have hc := sync_items_counts link project_id items st SyncResult.empty
      rw [hloop] at hc
      dsimp only at hc
      have h0 : SyncResult.empty.items_skipped = 0 := rfl
      have h1 : SyncResult.empty.items_created = 0 := rfl
      have h2 : SyncResult.empty.items_updated = 0 := rfl
      have h3 : SyncResult.empty.items_synced = 0 := rfl
      rw [h0] at hc
      rw [h1, h2, h3] at hc
      exact ⟨hc.1, by omega⟩
  · intro st link project_id item rest r hskip
    rw [sync_items_cons]
    rcases hskip with hnone | ⟨issue, hiss, m, hm, hdir⟩
    · have hstep : sync_item_from_github st link project_id item
          = (st, Except.ok false) := by
        unfold sync_item_from_github
        rw [hnone]
      rw [hstep]
      rfl
    · have hstep : sync_item_from_github st link project_id item
          = (st, Except.ok false) := by
        unfold sync_item_from_github
        rw [hiss]
        simp only [hm, hdir]
        rfl
      rw [hstep]
      rfl

/-- Witness for C10: the second conjunct applied to a concrete draft item
(no underlying issue) in the sample state. -/
theorem c10_witness :
    sync_items sampleSyncState sampleLink 0 [sampleItem none] SyncResult.empty
      = sync_items sampleSyncState sampleLink 0 []
          { SyncResult.empty with
              items_updated := SyncResult.empty.items_updated + 1
              items_synced := SyncResult.empty.items_synced + 1 } :=
  c10_skipped_counted.2 sampleSyncState sampleLink 0 (sampleItem none) []
    SyncResult.empty (Or.inl rfl)

end AgentMgmt
